import Mathlib

/-!
Tetro: the falling-block game of `src/pages/Tetro.jsx`

A shallow embedding of the game logic of the `Tetro` React component
(`checkCollision`, `movePiece`, `lockPiece`, `spawnPiece`, `handleWin`,
`handleLoss`, `startNewGame`, `handleBoardClick`, the gravity interval and
the key handler), followed by theorems about it.

Modelling conventions.

* JavaScript numbers that hold board coordinates are `Int`; array lengths
  and indices that were checked to be non-negative are `Nat`.
* A grid is a list of rows, each a list of cells.  The component only ever
  builds grids of `ROWS` rows of `COLS` cells (`WellFormed`), but the
  definitions are written for arbitrary lists so that this is a theorem and
  not an assumption of the types.
* A function that may raise a JavaScript `TypeError` (indexing into
  `undefined`) returns `Option`; `none` is the raised error.
* The component is rendered through `createRoot`, so the state setters
  called inside one timer or key callback are batched and the four refs
  (`gridRef`, `activePieceRef`, `isActiveRef`, `isGameOverRef`) are only
  re-synchronised by the effects that run after the callback has returned.
  One command is therefore one function from the state the refs hold at its
  start to the state committed at its end.  Inside `lockPiece` the call to
  `spawnPiece` still reads the grid that `gridRef` held when the command
  started; `spawnPiece` takes that grid as an explicit argument.
* The functions `step` and `Reachable` run each handler on refs that already
  hold the state the previous handler produced.  The section on the component
  with its refs repeats the handlers as lists of setter calls computed from
  the refs alone (`handlerCalls`), keeps the refs apart from the state
  (`Live`) and makes the re-render that re-synchronises them an event of its
  own, so that a handler may run before it.
* `Math.floor(Math.random() * SHAPES.length)` is an argument `rnd : Fin 3`
  of every command; it is consumed only where `spawnPiece` runs.
* The `setTimeout` of `handleWin` / `handleLoss` (an alert followed by
  `startNewGame`) is the command `reset` arriving later.
-/

namespace Tetro

/-! ## Constants (lines 5-14) -/

def COLS : Nat := 10

def ROWS : Nat := 12

def WIN_ROW_COUNT : Nat := 5

def SAFE_ZONE_START_ROW : Nat := 4

/-! ## Data model -/

/-- Content of a grid cell: `null`, the string `locked`, the string `green`
(line 29).  The specification calls them Empty, Locked and Cleared. -/
inductive Cell where
  | empty
  | locked
  | green
  deriving DecidableEq, Repr

/-- An offset `{x, y}` of a shape, relative to the origin of the piece. -/
structure Coord where
  x : Int
  y : Int
  deriving DecidableEq, Repr

/-- An entry of `SHAPES`: `{ type, coords, width, height }`. -/
structure Shape where
  type : String
  coords : List Coord
  width : Nat
  height : Nat
  deriving DecidableEq, Repr

/-- The active piece `{ shape, x, y }` (line 34). -/
structure Piece where
  shape : Shape
  x : Int
  y : Int
  deriving DecidableEq, Repr

/-- The grid, `grid[row][col]`, row 0 at the top (lines 28-32). -/
abbrev Grid := List (List Cell)

/-- Value of `gameResult` when it is not `null` (line 37). -/
inductive GameResult where
  | win
  | loss
  deriving DecidableEq, Repr

/-- The five `useState` cells of the component (lines 30-37). -/
structure State where
  grid : Grid
  activePiece : Option Piece
  isActive : Bool
  isGameOver : Bool
  gameResult : Option GameResult
  deriving DecidableEq, Repr

/-- The catalog `SHAPES` (lines 18-25). -/
def SHAPES : List Shape :=
  [ { type := "2x2", coords := [⟨0, 0⟩, ⟨1, 0⟩, ⟨0, 1⟩, ⟨1, 1⟩], width := 2, height := 2 },
    { type := "2x1", coords := [⟨0, 0⟩, ⟨0, 1⟩], width := 1, height := 2 },
    { type := "1x1", coords := [⟨0, 0⟩], width := 1, height := 1 } ]

/-- The expression `SHAPES[Math.floor(Math.random() * SHAPES.length)]`
(line 89), for the random index `rnd`. -/
def randomShape (rnd : Fin 3) : Shape :=
  SHAPES.get ⟨rnd.val, rnd.isLt⟩

/-- The grid `Array.from({ length: ROWS }, () => Array(COLS).fill(null))`
(lines 31 and 81). -/
def emptyGrid : Grid :=
  List.replicate ROWS (List.replicate COLS Cell.empty)

/-- The state of the first render (lines 30-37). -/
def initialState : State :=
  { grid := emptyGrid, activePiece := none, isActive := false,
    isGameOver := false, gameResult := none }

/-- A grid has the dimensions the component creates: `ROWS` rows of `COLS`
cells. -/
def WellFormed (g : Grid) : Prop :=
  g.length = ROWS ∧ ∀ row ∈ g, row.length = COLS

instance (g : Grid) : Decidable (WellFormed g) := by
  unfold WellFormed; infer_instance

/-- The read `grid[r][c]` for natural indices; `none` when either index is
outside the grid. -/
def cellAt (g : Grid) (r c : Nat) : Option Cell :=
  match g[r]? with
  | none => none
  | some row => row[c]?

/-! ## Collision (lines 124-139) -/

/-- The loop body of `checkCollision`, over the remaining offsets.
`currentGrid[targetY]` being `undefined` raises a `TypeError` (`none`);
`currentGrid[targetY][targetX]` being `undefined` satisfies `!== null`. -/
def checkCoords (x y : Int) (currentGrid : Grid) : List Coord → Option Bool
  | [] => some false
  | coord :: rest =>
    let targetX := x + coord.x
    let targetY := y + coord.y
    if targetX < 0 ∨ targetX ≥ (COLS : Int) ∨ targetY ≥ (ROWS : Int) then some true
    else if targetY ≥ 0 then
      match currentGrid[targetY.toNat]? with
      | none => none
      | some row =>
        match row[targetX.toNat]? with
        | none => some true
        | some cell =>
          if cell ≠ Cell.empty then some true else checkCoords x y currentGrid rest
    else checkCoords x y currentGrid rest

/-- The function `checkCollision(x, y, shape, currentGrid)`. -/
def checkCollision (x y : Int) (shape : Shape) (currentGrid : Grid) : Option Bool :=
  checkCoords x y currentGrid shape.coords

/-! ## Terminal outcomes and reset (lines 80-86, 206-223) -/

/-- The function `handleWin`: the two setters. -/
def handleWin (s : State) : State :=
  { s with isGameOver := true, gameResult := some GameResult.win }

/-- The function `handleLoss`: the two setters. -/
def handleLoss (s : State) : State :=
  { s with isGameOver := true, gameResult := some GameResult.loss }

/-- The function `startNewGame`: every state cell is overwritten. -/
def startNewGame (_s : State) : State :=
  { grid := emptyGrid, activePiece := none, isGameOver := false,
    gameResult := none, isActive := false }

/-! ## Spawning (lines 88-102) -/

/-- The function `spawnPiece`.  `gridRef` is the content of `gridRef.current`
when it runs and `s` the state with the setters called so far applied. -/
def spawnPiece (gridRef : Grid) (s : State) (rnd : Fin 3) : Option State :=
  let newPiece : Piece := { shape := randomShape rnd, x := 0, y := 0 }
  match checkCollision newPiece.x newPiece.y (randomShape rnd) gridRef with
  | none => none
  | some true => some (handleLoss s)
  | some false => some { s with activePiece := some newPiece }

/-! ## Locking (lines 141-204) -/

/-- The assignment `currentGrid[r][c] = v` of line 153.  The guard of line
152 puts `r` below `ROWS` and `c` below `COLS`, so on a grid of `ROWS` rows of
`COLS` cells the write is inside the array, and there this is the assignment.
On other grids JavaScript raises on a missing row and lengthens a short row;
the model leaves such a grid as it is, and no theorem uses it there. -/
def setCell (g : Grid) (r c : Nat) (v : Cell) : Grid :=
  match g[r]? with
  | none => g
  | some row => g.set r (row.set c v)

/-- The `forEach` of step 1 of `lockPiece` (lines 148-163), threading the
copy `currentGrid` and the flag `landedHigh`. -/
def placeCoords (px py : Int) : List Coord → Grid × Bool → Grid × Bool
  | [], acc => acc
  | coord :: rest, (currentGrid, landedHigh) =>
    let targetX := px + coord.x
    let targetY := py + coord.y
    if targetY ≥ 0 ∧ targetY < (ROWS : Int) ∧ targetX ≥ 0 ∧ targetX < (COLS : Int) then
      placeCoords px py rest
        (setCell currentGrid targetY.toNat targetX.toNat Cell.locked,
          landedHigh || decide (targetY < (SAFE_ZONE_START_ROW : Int)))
    else placeCoords px py rest (currentGrid, landedHigh)

/-- Step 1 of `lockPiece`: the grid with the piece placed and `landedHigh`. -/
def placePiece (piece : Piece) (grid : Grid) : Grid × Bool :=
  placeCoords piece.x piece.y piece.shape.coords (grid, false)

/-- The row test `row.every(cell => cell !== null)` (line 183). -/
def isFull (row : List Cell) : Bool :=
  row.all (fun cell => decide (cell ≠ Cell.empty))

/-- Step 3 of `lockPiece` (lines 179-193), the operation the specification
calls `clearFullRows`: `nextGrid` and `totalGreenRows`.  The counter
`greenCount` of the source is incremented but never read. -/
def clearFullRows (currentGrid : Grid) : Grid × Nat :=
  let nextGrid :=
    currentGrid.map (fun row => if isFull row then List.replicate COLS Cell.green else row)
  let totalGreenRows :=
    (nextGrid.filter (fun row => decide (row[0]? = some Cell.green))).length
  (nextGrid, totalGreenRows)

/-- The function `lockPiece`.  `s` is the state held by the refs when the
command started.  Reading `piece.shape` of a `null` piece raises. -/
def lockPiece (s : State) (rnd : Fin 3) : Option State :=
  match s.activePiece with
  | none => none
  | some piece =>
    let placed := placePiece piece s.grid
    let s1 : State := { s with grid := placed.1, activePiece := none }
    if placed.2 then some (handleLoss s1)
    else
      let resolved := clearFullRows placed.1
      let s2 : State := { s1 with grid := resolved.1 }
      if resolved.2 ≥ WIN_ROW_COUNT then some (handleWin s2)
      else spawnPiece s.grid s2 rnd

/-! ## Movement (lines 104-122) -/

/-- The function `movePiece(dx, dy)`. -/
def movePiece (s : State) (dx dy : Int) (rnd : Fin 3) : Option State :=
  match s.activePiece with
  | none => some s
  | some piece =>
    let newX := piece.x + dx
    let newY := piece.y + dy
    match checkCollision newX newY piece.shape s.grid with
    | none => none
    | some false => some { s with activePiece := some { piece with x := newX, y := newY } }
    | some true => if dy > 0 then lockPiece s rnd else some s

/-! ## Commands (lines 52-76, 225-232) -/

/-- The guard shared by the gravity interval and the key handler
(lines 54 and 65). -/
def canMove (s : State) : Bool :=
  s.isActive && !s.isGameOver && s.activePiece.isSome

/-- The gravity interval callback (lines 53-57). -/
def tick (s : State) (rnd : Fin 3) : Option State :=
  if canMove s then movePiece s 0 1 rnd else some s

/-- The key handler on `ArrowLeft` (lines 64-68). -/
def moveLeft (s : State) (rnd : Fin 3) : Option State :=
  if canMove s then movePiece s (-1) 0 rnd else some s

/-- The key handler on `ArrowRight` (lines 64-70). -/
def moveRight (s : State) (rnd : Fin 3) : Option State :=
  if canMove s then movePiece s 1 0 rnd else some s

/-- The function `handleBoardClick`. -/
def handleBoardClick (s : State) (rnd : Fin 3) : Option State :=
  if !s.isActive then
    let s1 : State := { s with isActive := true }
    if s.activePiece.isNone && !s.isGameOver then spawnPiece s.grid s1 rnd else some s1
  else some s

/-- The events the component reacts to. -/
inductive Command where
  | activate
  | tick
  | moveLeft
  | moveRight
  | reset
  deriving DecidableEq, Repr

/-- One command, run to completion on the committed state. -/
def step (s : State) (c : Command) (rnd : Fin 3) : Option State :=
  match c with
  | Command.activate => handleBoardClick s rnd
  | Command.tick => tick s rnd
  | Command.moveLeft => moveLeft s rnd
  | Command.moveRight => moveRight s rnd
  | Command.reset => some (startNewGame s)

/-- States reachable from the first render when every command is applied
atomically: each handler runs on refs that hold the state the previous
command committed.  The component itself can also run a handler on refs that
are still stale; `LiveReachable` below covers that. -/
inductive Reachable : State → Prop where
  | init : Reachable initialState
  | next {s t : State} (c : Command) (rnd : Fin 3) :
      Reachable s → step s c rnd = some t → Reachable t

/-! ## Command traces -/

/-- A sequence of commands, each with its random draw, run from `s`. -/
def run : State → List (Command × Fin 3) → Option State
  | s, [] => some s
  | s, (c, rnd) :: rest =>
    match step s c rnd with
    | none => none
    | some t => run t rest

/-- Push the fresh piece `col` columns to the right, then let `ticks` gravity
ticks pass; every spawn draws `rnd`. -/
def dropAt (col ticks : Nat) (rnd : Fin 3) : List (Command × Fin 3) :=
  List.replicate col (Command.moveRight, rnd) ++ List.replicate ticks (Command.tick, rnd)

/-- Four 2x1 blocks stacked in column 0, and a fifth resting on them. -/
def lossTrace : List (Command × Fin 3) :=
  (Command.activate, 1) ::
    (dropAt 0 11 1 ++ dropAt 0 9 1 ++ dropAt 0 7 1 ++ dropAt 0 5 1 ++ dropAt 0 2 1)

/-- Five 2x2 blocks side by side, each locked after `ticks` ticks. -/
def layer (ticks : Nat) : List (Command × Fin 3) :=
  dropAt 0 ticks 0 ++ dropAt 2 ticks 0 ++ dropAt 4 ticks 0 ++ dropAt 6 ticks 0 ++
    dropAt 8 ticks 0

/-- Two layers of 2x2 blocks, then a third layer whose last block has come
to rest but is not locked yet. -/
def winTrace : List (Command × Fin 3) :=
  (Command.activate, 0) ::
    (layer 11 ++ layer 9 ++ dropAt 0 7 0 ++ dropAt 2 7 0 ++ dropAt 4 7 0 ++ dropAt 6 7 0 ++
      dropAt 8 6 0)

/-- The state at the end of `lossTrace`. -/
def preLoss : State :=
  { grid := List.replicate 4 (List.replicate 10 Cell.empty) ++
      List.replicate 8 (Cell.locked :: List.replicate 9 Cell.empty),
    activePiece := some { shape := randomShape 1, x := 0, y := 2 },
    isActive := true, isGameOver := false, gameResult := none }

/-- The state at the end of `winTrace`. -/
def preWin : State :=
  { grid := List.replicate 6 (List.replicate 10 Cell.empty) ++
      List.replicate 2 (List.replicate 8 Cell.locked ++ List.replicate 2 Cell.empty) ++
      List.replicate 4 (List.replicate 10 Cell.green),
    activePiece := some { shape := randomShape 0, x := 8, y := 6 },
    isActive := true, isGameOver := false, gameResult := none }

/-- The state one tick after `preWin`. -/
def afterWin : State :=
  { grid := List.replicate 6 (List.replicate 10 Cell.empty) ++
      List.replicate 6 (List.replicate 10 Cell.green),
    activePiece := none, isActive := true, isGameOver := true,
    gameResult := some GameResult.win }

/-! ## Predicates used in the statements -/

/-- The offset `c` of a piece at `(x, y)` hits a wall, the floor or an
occupied cell of `g`. -/
def Blocked (g : Grid) (x y : Int) (c : Coord) : Prop :=
  x + c.x < 0 ∨ x + c.x ≥ 10 ∨ y + c.y ≥ 12 ∨
    (y + c.y ≥ 0 ∧ (cellAt g (y + c.y).toNat (x + c.x).toNat = some Cell.locked ∨
      cellAt g (y + c.y).toNat (x + c.x).toNat = some Cell.green))

/-- Every row is Cleared as a whole or holds no Cleared cell. -/
def UniformRows (g : Grid) : Prop :=
  ∀ row ∈ g, (∀ c ∈ row, c = Cell.green) ∨ (∀ c ∈ row, c ≠ Cell.green)

/-- All cells of the rows above the safe zone are Empty. -/
def TopEmpty (g : Grid) : Prop :=
  ∀ r c, r < SAFE_ZONE_START_ROW → c < COLS → cellAt g r c = some Cell.empty

/-- The offset `d` of a piece at `(px, py)` lands on the board cell `(r, c)`. -/
def Covers (px py : Int) (coords : List Coord) (r c : Nat) : Prop :=
  ∃ d ∈ coords, py + d.y = (r : Int) ∧ px + d.x = (c : Int)

instance (px py : Int) (coords : List Coord) (r c : Nat) :
    Decidable (Covers px py coords r c) := by
  unfold Covers; infer_instance

/-- The invariant of the reachable states. -/
structure Inv (s : State) : Prop where
  wf : WellFormed s.grid
  uniform : UniformRows s.grid
  top : s.isGameOver = false → TopEmpty s.grid
  piece : ∀ p, s.activePiece = some p →
    p.shape ∈ SHAPES ∧ 0 ≤ p.y ∧ checkCollision p.x p.y p.shape s.grid = some false
  active : s.activePiece.isSome = (s.isActive && !s.isGameOver)
  result : s.gameResult.isSome = s.isGameOver

/-- The number of rows whose entire cell set is Cleared. -/
def clearedRowCount (g : Grid) : Nat :=
  (g.filter (fun row => row.all (fun cell => decide (cell = Cell.green)))).length

/-- A running game on an empty grid with the given active piece. -/
def runningWith (piece : Piece) : State :=
  { grid := emptyGrid, activePiece := some piece, isActive := true,
    isGameOver := false, gameResult := none }

/-- The 1x1 piece against the right wall, column 9. -/
def pieceAtRightWall : Piece := { shape := randomShape 2, x := 9, y := 5 }

/-- The 1x1 piece on the bottom row, row 11. -/
def pieceOnFloor : Piece := { shape := randomShape 2, x := 0, y := 11 }

/-- A grid whose row 2 lacks only its first cell. -/
def almostFullHighRow : Grid :=
  emptyGrid.set 2 (Cell.empty :: List.replicate 9 Cell.locked)

/-- The 1x1 piece about to complete row 2 of `almostFullHighRow`. -/
def highPiece : Piece := { shape := randomShape 2, x := 0, y := 2 }

/-- A running game on `almostFullHighRow` with `highPiece` falling. -/
def highState : State :=
  { grid := almostFullHighRow, activePiece := some highPiece, isActive := true,
    isGameOver := false, gameResult := none }

end Tetro

/-! # Slido: the shuffle of `src/pages/Slido.jsx`

The board is the array of nine tile numbers, `8` being the blank.  The
value `Math.floor(Math.random() * n)` is any index below `n` when `n > 0`;
the draw of iteration `i` is an arbitrary natural number `rnd i` reduced
modulo `n`.  A read of the array outside its bounds, which JavaScript answers
with `undefined`, is `none`. -/

namespace Slido

def GRID_SIZE : Nat := 3

/-- The solved board (line 7). -/
def WIN_STATE : List Nat := [0, 1, 2, 3, 4, 5, 6, 7, 8]

/-- The function `getNeighbors(index)` (lines 81-92). -/
def getNeighbors (index : Nat) : List Nat :=
  let row := index / GRID_SIZE
  let col := index % GRID_SIZE
  let neighbors : List Nat := []
  let neighbors := if row > 0 then neighbors ++ [index - 3] else neighbors
  let neighbors := if row < 2 then neighbors ++ [index + 3] else neighbors
  let neighbors := if col > 0 then neighbors ++ [index - 1] else neighbors
  let neighbors := if col < 2 then neighbors ++ [index + 1] else neighbors
  neighbors

/-- The variables of the loop of `shuffleBoard` (lines 58-60). -/
structure Shuffle where
  current : List Nat
  emptyIdx : Nat
  previousIdx : Int
  deriving DecidableEq, Repr

/-- The destructuring swap of line 70,
`[current[i], current[j]] = [current[j], current[i]]`: the right-hand side is
read first, then `current[i]` and `current[j]` are written in that order. -/
def swapCells (current : List Nat) (i j : Nat) : Option (List Nat) :=
  match current[i]?, current[j]? with
  | some a, some b => some ((current.set i b).set j a)
  | _, _ => none

/-- One iteration of the loop of `shuffleBoard` (lines 64-72), with the
random draw `rnd`.  An empty `validNeighbors` makes `randomNeighbor`
`undefined`. -/
def shuffleStep (rnd : Nat) (st : Shuffle) : Option Shuffle :=
  let neighbors := getNeighbors st.emptyIdx
  let validNeighbors : List Nat :=
    neighbors.filter (fun (n : Nat) => decide ((n : Int) ≠ st.previousIdx))
  match validNeighbors[rnd % validNeighbors.length]? with
  | none => none
  | some randomNeighbor =>
    match swapCells st.current st.emptyIdx randomNeighbor with
    | none => none
    | some current =>
      some { current := current, previousIdx := (st.emptyIdx : Int), emptyIdx := randomNeighbor }

/-- The loop variables of `shuffleBoard` after `i` iterations. -/
def shuffleLoop (rnd : Nat → Nat) : Nat → Option Shuffle
  | 0 => some { current := WIN_STATE, emptyIdx := 8, previousIdx := -1 }
  | i + 1 =>
    match shuffleLoop rnd i with
    | none => none
    | some st => shuffleStep (rnd i) st

/-- The board that `shuffleBoard` hands to `setBoard` (lines 57-75). -/
def shuffleBoard (rnd : Nat → Nat) : Option (List Nat) :=
  (shuffleLoop rnd 100).map (fun st => st.current)

/-! ## Predicates used in the statements -/

/-- Cells `i` and `j` of the 3x3 grid share a side. -/
def Adjacent (i j : Nat) : Prop :=
  i < 9 ∧ j < 9 ∧
    ((i / 3 = j / 3 ∧ (i % 3 + 1 = j % 3 ∨ j % 3 + 1 = i % 3)) ∨
      (i % 3 = j % 3 ∧ (i / 3 + 1 = j / 3 ∨ j / 3 + 1 = i / 3)))

instance (i j : Nat) : Decidable (Adjacent i j) := by
  unfold Adjacent; infer_instance

/-- A legal slide from board `b` to board `m`: the blank of `b` and a
tile that shares a side with it change places, and every other cell keeps its
content. -/
def Slide (b m : List Nat) : Prop :=
  ∃ blank tile, Adjacent blank tile ∧ b[blank]? = some 8 ∧ m.length = b.length ∧
    m[tile]? = some 8 ∧ m[blank]? = b[tile]? ∧
    ∀ k, k ≠ blank → k ≠ tile → m[k]? = b[k]?

/-- The boards that legal slides reach from the solved board. -/
inductive Solvable : List Nat → Prop where
  | solved : Solvable WIN_STATE
  | slide {b m : List Nat} : Solvable b → Slide b m → Solvable m

end Slido

namespace Tetro

/-! ## The component with its refs

The handlers once more, as the setter calls they make.  A handler reads only
the refs (`handleBoardClick` reads the values of the last render, which the
effects copy into the refs); the calls are applied, in order, to the state
that the next render will commit. -/

/-- A call of one of the five state setters (lines 30-37). -/
inductive Setter where
  | setGrid (grid : Grid)
  | setActivePiece (piece : Option Piece)
  | setIsActive (b : Bool)
  | setIsGameOver (b : Bool)
  | setGameResult (r : Option GameResult)
  deriving DecidableEq, Repr

/-- The state cells after one setter call. -/
def applySetter (s : State) : Setter → State
  | Setter.setGrid grid => { s with grid := grid }
  | Setter.setActivePiece piece => { s with activePiece := piece }
  | Setter.setIsActive b => { s with isActive := b }
  | Setter.setIsGameOver b => { s with isGameOver := b }
  | Setter.setGameResult r => { s with gameResult := r }

/-- The state cells after a sequence of setter calls. -/
def applySetters (s : State) (calls : List Setter) : State :=
  calls.foldl applySetter s

/-- The setter calls of `handleWin` (lines 207-208). -/
def handleWinCalls : List Setter :=
  [Setter.setIsGameOver true, Setter.setGameResult (some GameResult.win)]

/-- The setter calls of `handleLoss` (lines 217-218). -/
def handleLossCalls : List Setter :=
  [Setter.setIsGameOver true, Setter.setGameResult (some GameResult.loss)]

/-- The setter calls of `startNewGame` (lines 81-85). -/
def startNewGameCalls : List Setter :=
  [Setter.setGrid emptyGrid, Setter.setActivePiece none, Setter.setIsGameOver false,
    Setter.setGameResult none, Setter.setIsActive false]

/-- The setter calls of `spawnPiece` (lines 88-102); `gridRef` is the
content of `gridRef.current`. -/
def spawnPieceCalls (gridRef : Grid) (rnd : Fin 3) : Option (List Setter) :=
  let newPiece : Piece := { shape := randomShape rnd, x := 0, y := 0 }
  match checkCollision newPiece.x newPiece.y (randomShape rnd) gridRef with
  | none => none
  | some true => some handleLossCalls
  | some false => some [Setter.setActivePiece (some newPiece)]

/-- The setter calls of `lockPiece` (lines 141-204), computed from the
refs. -/
def lockPieceCalls (refs : State) (rnd : Fin 3) : Option (List Setter) :=
  match refs.activePiece with
  | none => none
  | some piece =>
    let placed := placePiece piece refs.grid
    let step1 := [Setter.setGrid placed.1, Setter.setActivePiece none]
    if placed.2 then some (step1 ++ handleLossCalls)
    else
      let resolved := clearFullRows placed.1
      let step3 := step1 ++ [Setter.setGrid resolved.1]
      if resolved.2 ≥ WIN_ROW_COUNT then some (step3 ++ handleWinCalls)
      else
        match spawnPieceCalls refs.grid rnd with
        | none => none
        | some calls => some (step3 ++ calls)

/-- The setter calls of `movePiece(dx, dy)` (lines 104-122), computed from
the refs. -/
def movePieceCalls (refs : State) (dx dy : Int) (rnd : Fin 3) : Option (List Setter) :=
  match refs.activePiece with
  | none => some []
  | some piece =>
    let newX := piece.x + dx
    let newY := piece.y + dy
    match checkCollision newX newY piece.shape refs.grid with
    | none => none
    | some false => some [Setter.setActivePiece (some { piece with x := newX, y := newY })]
    | some true => if dy > 0 then lockPieceCalls refs rnd else some []

/-- The setter calls of the handler of a command, computed from the refs:
the gravity callback (lines 53-57), the key handler (lines 64-71),
`handleBoardClick` (lines 225-232) and `startNewGame`. -/
def handlerCalls (refs : State) (c : Command) (rnd : Fin 3) : Option (List Setter) :=
  match c with
  | Command.tick => if canMove refs then movePieceCalls refs 0 1 rnd else some []
  | Command.moveLeft => if canMove refs then movePieceCalls refs (-1) 0 rnd else some []
  | Command.moveRight => if canMove refs then movePieceCalls refs 1 0 rnd else some []
  | Command.activate =>
    if !refs.isActive then
      if refs.activePiece.isNone && !refs.isGameOver then
        match spawnPieceCalls refs.grid rnd with
        | none => none
        | some calls => some (Setter.setIsActive true :: calls)
      else some [Setter.setIsActive true]
    else some []
  | Command.reset => some startNewGameCalls

/-- The component between two events: the state cells with every setter
call made so far applied, and the values the refs hold (the state of the last
render; `gameResult` has no ref and is never read). -/
structure Live where
  state : State
  refs : State
  deriving DecidableEq, Repr

/-- What can happen to the component: a handler runs, or React re-renders
and the effects of lines 46-49 copy the state into the refs. -/
inductive Event where
  | handler (c : Command) (rnd : Fin 3)
  | render
  deriving DecidableEq, Repr

/-- One event of the component. -/
def liveStep (l : Live) : Event → Option Live
  | Event.handler c rnd =>
    match handlerCalls l.refs c rnd with
    | none => none
    | some calls => some { l with state := applySetters l.state calls }
  | Event.render => some { l with refs := l.state }

/-- What the component can reach from the first render, a re-render being
free to come late. -/
inductive LiveReachable : Live → Prop where
  | init : LiveReachable { state := initialState, refs := initialState }
  | next {l m : Live} (e : Event) : LiveReachable l → liveStep l e = some m → LiveReachable m

/-- The 2x2 block resting on the floor in the left corner of the empty
grid. -/
def cornerPiece : Piece := { shape := randomShape 0, x := 0, y := 10 }

/-- The commands that bring the first 2x2 block down to `cornerPiece`. -/
def cornerTrace : List (Command × Fin 3) :=
  (Command.activate, 0) :: dropAt 0 10 0

/-- The grid after `cornerPiece` is locked. -/
def cornerGrid : Grid :=
  List.replicate 10 (List.replicate 10 Cell.empty) ++
    List.replicate 2 (Cell.locked :: Cell.locked :: List.replicate 8 Cell.empty)

/-- The piece that the key handler, run on the refs of before the lock,
sets: `cornerPiece` one column to the right. -/
def overlapPiece : Piece := { shape := randomShape 0, x := 1, y := 10 }

/-- The state committed after the tick that locks `cornerPiece`, followed
by `ArrowRight` handled before the re-render. -/
def overlapState : State :=
  { grid := cornerGrid, activePiece := some overlapPiece, isActive := true,
    isGameOver := false, gameResult := none }

/-- A running game with the 2x1 block still half above the board. -/
def enteringState : State :=
  runningWith { shape := randomShape 1, x := 0, y := -1 }

/-! ## Lookup in well-formed grids -/

theorem wf_lookup {g : Grid} (hg : WellFormed g) {r c : Nat} (hr : r < ROWS) (hc : c < COLS) :
    ∃ row cell, g[r]? = some row ∧ row[c]? = some cell := by
  obtain ⟨hlen, hrows⟩ := hg
  have hr2 : r < g.length := by omega
  have h1 : g[r]? = some g[r] := List.getElem?_eq_getElem hr2
  have hrow : (g[r]).length = COLS := hrows _ (List.getElem_mem _)
  have hc2 : c < (g[r]).length := by omega
  exact ⟨g[r], (g[r])[c], h1, List.getElem?_eq_getElem hc2⟩

theorem wf_cellAt {g : Grid} (hg : WellFormed g) {r c : Nat} (hr : r < ROWS) (hc : c < COLS) :
    ∃ cell, cellAt g r c = some cell := by
  obtain ⟨row, cell, h1, h2⟩ := wf_lookup hg hr hc
  exact ⟨cell, by simp [cellAt, h1, h2]⟩

theorem cell_cases (c : Cell) : c = Cell.empty ∨ c = Cell.locked ∨ c = Cell.green := by
  cases c <;> simp

/-! ## Collision -/

theorem checkCoords_spec {g : Grid} (hg : WellFormed g) (x y : Int) (coords : List Coord) :
    ∃ b, checkCoords x y g coords = some b ∧ (b = true ↔ ∃ c ∈ coords, Blocked g x y c) := by
  induction coords with
  | nil => exact ⟨false, rfl, by simp⟩
  | cons c rest ih =>
    obtain ⟨b, hb, hiff⟩ := ih
    by_cases hwall : x + c.x < 0 ∨ x + c.x ≥ 10 ∨ y + c.y ≥ 12
    · refine ⟨true, ?_, ?_⟩
      · simp only [checkCoords, COLS, ROWS, Nat.cast_ofNat]
        rw [if_pos hwall]
      · simp only [true_iff]
        exact ⟨c, List.mem_cons_self _ _, by unfold Blocked; tauto⟩
    · have hx0 : 0 ≤ x + c.x := by omega
      have hx1 : x + c.x < 10 := by omega
      have hy1 : y + c.y < 12 := by omega
      by_cases hy0 : y + c.y ≥ 0
      · have hr : (y + c.y).toNat < ROWS := by unfold ROWS; omega
        have hc : (x + c.x).toNat < COLS := by unfold COLS; omega
        obtain ⟨row, cell, h1, h2⟩ := wf_lookup hg hr hc
        have hcell : cellAt g (y + c.y).toNat (x + c.x).toNat = some cell := by
          simp [cellAt, h1, h2]
        by_cases he : cell = Cell.empty
        · refine ⟨b, ?_, ?_⟩
          · simp only [checkCoords, COLS, ROWS, Nat.cast_ofNat]
            rw [if_neg hwall, if_pos hy0, h1]
            simp only [h2, he, ne_eq, not_true_eq_false, if_false]
            exact hb
          · rw [hiff]
            constructor
            · rintro ⟨d, hd, hbd⟩
              exact ⟨d, List.mem_cons_of_mem _ hd, hbd⟩
            · rintro ⟨d, hd, hbd⟩
              rcases List.mem_cons.mp hd with rfl | hd
              · unfold Blocked at hbd
                rw [hcell, he] at hbd
                simp at hbd
                omega
              · exact ⟨d, hd, hbd⟩
        · refine ⟨true, ?_, ?_⟩
          · simp only [checkCoords, COLS, ROWS, Nat.cast_ofNat]
            rw [if_neg hwall, if_pos hy0, h1]
            simp only [h2, ne_eq, he, not_false_eq_true, if_true]
          · simp only [true_iff]
            refine ⟨c, List.mem_cons_self _ _, ?_⟩
            unfold Blocked
            rw [hcell]
            rcases cell_cases cell with h | h | h
            · exact absurd h he
            · subst h; simp [hy0]
            · subst h; simp [hy0]
      · refine ⟨b, ?_, ?_⟩
        · simp only [checkCoords, COLS, ROWS, Nat.cast_ofNat]
          rw [if_neg hwall, if_neg hy0]
          exact hb
        · rw [hiff]
          constructor
          · rintro ⟨d, hd, hbd⟩
            exact ⟨d, List.mem_cons_of_mem _ hd, hbd⟩
          · rintro ⟨d, hd, hbd⟩
            rcases List.mem_cons.mp hd with rfl | hd
            · unfold Blocked at hbd
              omega
            · exact ⟨d, hd, hbd⟩

/-- C1. On a grid of 12 rows of 10 cells, `checkCollision` returns a value
(no failed index), and the value is true exactly when some offset of the
shape lands left of column 0, right of column 9, below row 11, or on a row
at or below the top whose cell is Locked or Cleared; every read the loop can
reach is inside the grid. -/
theorem checkCollision_iff (x y : Int) (shape : Shape) (grid : Grid)
    (hg : WellFormed grid) :
    (∃ b, checkCollision x y shape grid = some b ∧
      (b = true ↔ ∃ c ∈ shape.coords,
        x + c.x < 0 ∨ x + c.x ≥ 10 ∨ y + c.y ≥ 12 ∨
          (y + c.y ≥ 0 ∧
            (cellAt grid (y + c.y).toNat (x + c.x).toNat = some Cell.locked ∨
              cellAt grid (y + c.y).toNat (x + c.x).toNat = some Cell.green)))) ∧
    (∀ c ∈ shape.coords, ¬ (x + c.x < 0 ∨ x + c.x ≥ 10 ∨ y + c.y ≥ 12) → y + c.y ≥ 0 →
      ∃ row cell, grid[(y + c.y).toNat]? = some row ∧ row[(x + c.x).toNat]? = some cell) := by
  refine ⟨checkCoords_spec hg x y shape.coords, ?_⟩
  intro c _ hwall hy0
  exact wf_lookup hg (by unfold ROWS; omega) (by unfold COLS; omega)

/-! ## Placement -/

theorem setCell_wf {g : Grid} (hg : WellFormed g) (r c : Nat) (v : Cell) :
    WellFormed (setCell g r c v) := by
  unfold setCell
  split
  · exact hg
  · next row hrow =>
    refine ⟨by rw [List.length_set]; exact hg.1, ?_⟩
    intro row2 hmem
    rcases List.mem_or_eq_of_mem_set hmem with h | h
    · exact hg.2 _ h
    · rw [h, List.length_set]
      exact hg.2 _ (List.getElem?_mem hrow)

theorem cellAt_setCell {g : Grid} (hg : WellFormed g) {r c : Nat} (hr : r < ROWS)
    (hc : c < COLS) (v : Cell) (r2 c2 : Nat) :
    cellAt (setCell g r c v) r2 c2 = if r2 = r ∧ c2 = c then some v else cellAt g r2 c2 := by
  obtain ⟨row, cell, h1, h2⟩ := wf_lookup hg hr hc
  have hrl : r < g.length := by rw [hg.1]; exact hr
  have hcl : c < row.length := by rw [hg.2 _ (List.getElem?_mem h1)]; exact hc
  unfold setCell
  rw [h1]
  simp only
  by_cases hrr : r2 = r
  · subst hrr
    by_cases hcc : c2 = c
    · subst hcc
      simp [cellAt, List.getElem?_set_self hrl, List.getElem?_set_self hcl]
    · have hcc2 : c ≠ c2 := fun h => hcc h.symm
      simp [cellAt, List.getElem?_set_self hrl, List.getElem?_set_ne hcc2, h1, hcc]
  · have hrr2 : r ≠ r2 := fun h => hrr h.symm
    simp [cellAt, List.getElem?_set_ne hrr2, hrr]

/-- The offset lands on the board: the guard of line 152. -/
theorem onBoard_toNat {t : Int} {n : Nat} (h0 : t ≥ 0) (h1 : t < (n : Int)) : t.toNat < n := by
  omega

theorem placeCoords_wf (px py : Int) (coords : List Coord) :
    ∀ (g : Grid) (b : Bool), WellFormed g → WellFormed (placeCoords px py coords (g, b)).1 := by
  induction coords with
  | nil => intro g b hg; exact hg
  | cons d rest ih =>
    intro g b hg
    simp only [placeCoords]
    split_ifs with h
    · exact ih _ _ (setCell_wf hg _ _ _)
    · exact ih _ _ hg

theorem placeCoords_cellAt (px py : Int) (coords : List Coord) :
    ∀ (g : Grid) (b : Bool), WellFormed g → ∀ r c : Nat, r < ROWS → c < COLS →
      cellAt (placeCoords px py coords (g, b)).1 r c =
        if Covers px py coords r c then some Cell.locked else cellAt g r c := by
  induction coords with
  | nil => intro g b hg r c _ _; simp [placeCoords, Covers]
  | cons d rest ih =>
    intro g b hg r c hr hc
    simp only [placeCoords]
    split_ifs with h hcov hcov
    · rw [ih _ _ (setCell_wf hg _ _ _) r c hr hc]
      have : Covers px py rest r c ∨ (py + d.y = r ∧ px + d.x = c) := by
        obtain ⟨e, he, h1, h2⟩ := hcov
        rcases List.mem_cons.mp he with rfl | he
        · exact Or.inr ⟨h1, h2⟩
        · exact Or.inl ⟨e, he, h1, h2⟩
      by_cases hrest : Covers px py rest r c
      · rw [if_pos hrest]
      · rw [if_neg hrest]
        rcases this with h3 | ⟨h3, h4⟩
        · exact absurd h3 hrest
        · rw [cellAt_setCell hg (onBoard_toNat h.1 h.2.1) (onBoard_toNat h.2.2.1 h.2.2.2)]
          rw [if_pos]
          omega
    · rw [ih _ _ (setCell_wf hg _ _ _) r c hr hc]
      have hrest : ¬ Covers px py rest r c := fun ⟨e, he, h1, h2⟩ =>
        hcov ⟨e, List.mem_cons_of_mem _ he, h1, h2⟩
      rw [if_neg hrest]
      rw [cellAt_setCell hg (onBoard_toNat h.1 h.2.1) (onBoard_toNat h.2.2.1 h.2.2.2)]
      rw [if_neg]
      intro ⟨h3, h4⟩
      exact hcov ⟨d, List.mem_cons_self _ _, by omega, by omega⟩
    · rw [ih _ _ hg r c hr hc]
      have hrest : Covers px py rest r c := by
        obtain ⟨e, he, h1, h2⟩ := hcov
        rcases List.mem_cons.mp he with rfl | he
        · exfalso
          apply h
          unfold ROWS COLS at *
          omega
        · exact ⟨e, he, h1, h2⟩
      rw [if_pos hrest]
    · rw [ih _ _ hg r c hr hc]
      have hrest : ¬ Covers px py rest r c := fun ⟨e, he, h1, h2⟩ =>
        hcov ⟨e, List.mem_cons_of_mem _ he, h1, h2⟩
      rw [if_neg hrest]

theorem placeCoords_flag (px py : Int) (coords : List Coord) :
    ∀ (g : Grid) (b : Bool), (placeCoords px py coords (g, b)).2 = true ↔
      b = true ∨ ∃ d ∈ coords, (0 ≤ py + d.y ∧ py + d.y < 4) ∧ 0 ≤ px + d.x ∧ px + d.x < 10 := by
  induction coords with
  | nil => intro g b; simp [placeCoords]
  | cons d rest ih =>
    intro g b
    simp only [placeCoords]
    split_ifs with h
    · rw [ih]
      simp only [Bool.or_eq_true, decide_eq_true_eq, List.mem_cons, exists_eq_or_imp,
        SAFE_ZONE_START_ROW, Nat.cast_ofNat]
      unfold ROWS COLS at h
      constructor
      · rintro ((hb | h4) | hex)
        · exact Or.inl hb
        · exact Or.inr (Or.inl ⟨⟨h.1, h4⟩, h.2.2.1, by simpa using h.2.2.2⟩)
        · exact Or.inr (Or.inr hex)
      · rintro (hb | hd | hex)
        · exact Or.inl (Or.inl hb)
        · exact Or.inl (Or.inr hd.1.2)
        · exact Or.inr hex
    · rw [ih]
      simp only [List.mem_cons, exists_eq_or_imp]
      unfold ROWS COLS at h
      constructor
      · rintro (hb | hex)
        · exact Or.inl hb
        · exact Or.inr (Or.inr hex)
      · rintro (hb | hd | hex)
        · exact Or.inl hb
        · exfalso; apply h; simp only [Nat.cast_ofNat]; omega
        · exact Or.inr hex

/-! ## Row resolution -/

theorem isFull_iff (row : List Cell) : isFull row = true ↔ ∀ cell ∈ row, cell ≠ Cell.empty := by
  simp [isFull]

theorem clearFullRows_grid (g : Grid) :
    (clearFullRows g).1 =
      g.map (fun row => if isFull row then List.replicate COLS Cell.green else row) := rfl

theorem clearFullRows_count (g : Grid) :
    (clearFullRows g).2 =
      ((clearFullRows g).1.filter (fun row => decide (row[0]? = some Cell.green))).length := rfl

theorem clearFullRows_wf {g : Grid} (hg : WellFormed g) : WellFormed (clearFullRows g).1 := by
  rw [clearFullRows_grid]
  refine ⟨by rw [List.length_map]; exact hg.1, ?_⟩
  intro row hrow
  obtain ⟨row0, hmem, rfl⟩ := List.mem_map.mp hrow
  split_ifs
  · exact List.length_replicate _ _
  · exact hg.2 _ hmem

theorem clearFullRows_getElem? (g : Grid) (r : Nat) :
    (clearFullRows g).1[r]? =
      (g[r]?).map (fun row => if isFull row then List.replicate COLS Cell.green else row) := by
  rw [clearFullRows_grid, List.getElem?_map]

theorem clearFullRows_uniform {g : Grid} (hu : UniformRows g) :
    UniformRows (clearFullRows g).1 := by
  rw [clearFullRows_grid]
  intro row hrow
  obtain ⟨row0, hmem, rfl⟩ := List.mem_map.mp hrow
  split_ifs
  · left
    intro c hc
    exact (List.mem_replicate.mp hc).2
  · exact hu _ hmem

theorem clearFullRows_cellAt_of_empty {g : Grid} {r c0 : Nat}
    (h : cellAt g r c0 = some Cell.empty) (c : Nat) :
    cellAt (clearFullRows g).1 r c = cellAt g r c := by
  unfold cellAt at h ⊢
  rw [clearFullRows_getElem?]
  cases hrow : g[r]? with
  | none => simp
  | some row =>
    rw [hrow] at h
    simp only at h
    have hne : isFull row = false := by
      rw [Bool.eq_false_iff]
      intro hf
      exact (isFull_iff row).mp hf _ (List.getElem?_mem h) rfl
    simp [hne]

theorem clearFullRows_cellAt {g : Grid} (hg : WellFormed g) {r c : Nat} (hr : r < ROWS)
    (hc : c < COLS) :
    cellAt (clearFullRows g).1 r c = some Cell.green ∨
      cellAt (clearFullRows g).1 r c = cellAt g r c := by
  obtain ⟨row, cell, h1, h2⟩ := wf_lookup hg hr hc
  unfold cellAt
  rw [clearFullRows_getElem?, h1]
  simp only [Option.map_some']
  split_ifs
  · left
    exact List.getElem?_replicate_of_lt hc
  · right; rfl

theorem clearFullRows_top {g : Grid} (ht : TopEmpty g) : TopEmpty (clearFullRows g).1 := by
  intro r c hr hc
  rw [clearFullRows_cellAt_of_empty (ht r c hr hc)]
  exact ht r c hr hc

/-! ## Uniform rows through the placement -/

theorem setCell_uniform {g : Grid} (hu : UniformRows g) {r c : Nat}
    (hne : cellAt g r c ≠ some Cell.green) (hsome : (cellAt g r c).isSome = true) :
    UniformRows (setCell g r c Cell.locked) := by
  unfold setCell
  cases hrow : g[r]? with
  | none => exact hu
  | some row =>
    simp only
    intro row2 hmem
    rcases List.mem_or_eq_of_mem_set hmem with h | h
    · exact hu _ h
    · right
      subst h
      have hcell : cellAt g r c = row[c]? := by simp [cellAt, hrow]
      rw [hcell] at hne hsome
      obtain ⟨cell, hcell2⟩ := Option.isSome_iff_exists.mp hsome
      have hmem2 : cell ∈ row := List.getElem?_mem hcell2
      have hng : cell ≠ Cell.green := fun h => hne (by rw [hcell2, h])
      have hrowu : ∀ c ∈ row, c ≠ Cell.green := by
        rcases hu _ (List.getElem?_mem hrow) with hall | hnone
        · exact absurd (hall _ hmem2) hng
        · exact hnone
      intro x hx
      rcases List.mem_or_eq_of_mem_set hx with h | h
      · exact hrowu _ h
      · rw [h]; simp

theorem placeCoords_uniform (px py : Int) (coords : List Coord) :
    ∀ (g : Grid) (b : Bool), WellFormed g → UniformRows g →
      (∀ r c : Nat, r < ROWS → c < COLS → Covers px py coords r c →
        cellAt g r c ≠ some Cell.green) →
      UniformRows (placeCoords px py coords (g, b)).1 := by
  induction coords with
  | nil => intro g b _ hu _; exact hu
  | cons d rest ih =>
    intro g b hg hu hfree
    simp only [placeCoords]
    split_ifs with h
    · have hr := onBoard_toNat h.1 h.2.1
      have hc := onBoard_toNat h.2.2.1 h.2.2.2
      have hcov : Covers px py (d :: rest) (py + d.y).toNat (px + d.x).toNat :=
        ⟨d, List.mem_cons_self _ _, by omega, by omega⟩
      obtain ⟨cell, hcell⟩ := wf_cellAt hg hr hc
      apply ih _ _ (setCell_wf hg _ _ _)
        (setCell_uniform hu (hfree _ _ hr hc hcov) (by rw [hcell]; rfl))
      intro r c hr2 hc2 hcov2
      rw [cellAt_setCell hg hr hc]
      split_ifs
      · simp
      · obtain ⟨e, he, h1, h2⟩ := hcov2
        exact hfree r c hr2 hc2 ⟨e, List.mem_cons_of_mem _ he, h1, h2⟩
    · apply ih _ _ hg hu
      intro r c hr2 hc2 hcov2
      obtain ⟨e, he, h1, h2⟩ := hcov2
      exact hfree r c hr2 hc2 ⟨e, List.mem_cons_of_mem _ he, h1, h2⟩

/-! ## Consequences of the collision check -/

theorem checkCollision_total {g : Grid} (hg : WellFormed g) (x y : Int) (shape : Shape) :
    checkCollision x y shape g = some true ∨ checkCollision x y shape g = some false := by
  obtain ⟨b, hb, _⟩ := checkCoords_spec hg x y shape.coords
  unfold checkCollision
  cases b
  · exact Or.inr hb
  · exact Or.inl hb

theorem checkCollision_true_iff {g : Grid} (hg : WellFormed g) (x y : Int) (shape : Shape) :
    checkCollision x y shape g = some true ↔ ∃ c ∈ shape.coords, Blocked g x y c := by
  obtain ⟨b, hb, hiff⟩ := checkCoords_spec hg x y shape.coords
  unfold checkCollision
  rw [hb, ← hiff]
  simp

theorem checkCollision_false_iff {g : Grid} (hg : WellFormed g) (x y : Int) (shape : Shape) :
    checkCollision x y shape g = some false ↔ ∀ c ∈ shape.coords, ¬ Blocked g x y c := by
  obtain ⟨b, hb, hiff⟩ := checkCoords_spec hg x y shape.coords
  unfold checkCollision
  rw [hb]
  cases b
  · simp only [true_iff]
    intro c hc hbl
    have := hiff.mpr ⟨c, hc, hbl⟩
    simp at this
  · simp only [Option.some.injEq, Bool.true_eq_false, false_iff]
    intro hall
    obtain ⟨c, hc, hbl⟩ := hiff.mp rfl
    exact hall c hc hbl

theorem free_cells {g : Grid} (hg : WellFormed g) {x y : Int} {shape : Shape}
    (h : checkCollision x y shape g = some false) {d : Coord} (hd : d ∈ shape.coords) :
    0 ≤ x + d.x ∧ x + d.x < 10 ∧ y + d.y < 12 ∧
      (0 ≤ y + d.y → cellAt g (y + d.y).toNat (x + d.x).toNat = some Cell.empty) := by
  have hnb := (checkCollision_false_iff hg x y shape).mp h d hd
  unfold Blocked at hnb
  push_neg at hnb
  refine ⟨by omega, by omega, by omega, ?_⟩
  intro hy
  obtain ⟨cell, hcell⟩ := wf_cellAt hg (r := (y + d.y).toNat) (c := (x + d.x).toNat)
    (by unfold ROWS; omega) (by unfold COLS; omega)
  have h2 := hnb.2.2.2 hy
  rw [hcell] at h2 ⊢
  rcases cell_cases cell with hc | hc | hc
  · rw [hc]
  · exact absurd (by rw [hc]) h2.1
  · exact absurd (by rw [hc]) h2.2

theorem covered_free {g : Grid} (hg : WellFormed g) {p : Piece}
    (h : checkCollision p.x p.y p.shape g = some false) {r c : Nat}
    (hcov : Covers p.x p.y p.shape.coords r c) : cellAt g r c = some Cell.empty := by
  obtain ⟨d, hd, h1, h2⟩ := hcov
  have hf := free_cells hg h hd
  have h3 := hf.2.2.2 (by omega)
  have e1 : (p.y + d.y).toNat = r := by omega
  have e2 : (p.x + d.x).toNat = c := by omega
  rw [e1, e2] at h3
  exact h3

theorem randomShape_mem (rnd : Fin 3) : randomShape rnd ∈ SHAPES := by
  unfold randomShape
  exact List.get_mem _ _ _

theorem shapes_offsets {shape : Shape} (hs : shape ∈ SHAPES) {d : Coord} (hd : d ∈ shape.coords) :
    (d.x = 0 ∨ d.x = 1) ∧ (d.y = 0 ∨ d.y = 1) := by
  simp only [SHAPES, List.mem_cons, List.mem_singleton, List.not_mem_nil, or_false] at hs
  rcases hs with rfl | rfl | rfl <;>
    simp only [List.mem_cons, List.mem_singleton, List.not_mem_nil, or_false] at hd
  · rcases hd with rfl | rfl | rfl | rfl <;> simp
  · rcases hd with rfl | rfl <;> simp
  · rcases hd with rfl; simp

theorem shapes_nodup {shape : Shape} (hs : shape ∈ SHAPES) : shape.coords.Nodup := by
  simp only [SHAPES, List.mem_cons, List.mem_singleton, List.not_mem_nil, or_false] at hs
  rcases hs with rfl | rfl | rfl <;> decide

theorem spawn_free {g : Grid} (hg : WellFormed g) (ht : TopEmpty g) (rnd : Fin 3) :
    checkCollision 0 0 (randomShape rnd) g = some false := by
  rw [checkCollision_false_iff hg]
  intro d hd
  have ho := shapes_offsets (randomShape_mem rnd) hd
  unfold Blocked
  have hr : (0 + d.y).toNat < SAFE_ZONE_START_ROW := by unfold SAFE_ZONE_START_ROW; omega
  have hc : (0 + d.x).toNat < COLS := by unfold COLS; omega
  rw [ht _ _ hr hc]
  simp
  omega

theorem spawnPiece_ok {g : Grid} (hg : WellFormed g) (ht : TopEmpty g) (s : State)
    (rnd : Fin 3) :
    spawnPiece g s rnd =
      some { s with activePiece := some { shape := randomShape rnd, x := 0, y := 0 } } := by
  unfold spawnPiece
  simp only [spawn_free hg ht rnd]

/-! ## The lock, case by case -/

theorem placePiece_wf (p : Piece) {g : Grid} (hg : WellFormed g) :
    WellFormed (placePiece p g).1 :=
  placeCoords_wf p.x p.y p.shape.coords g false hg

theorem placePiece_cellAt (p : Piece) {g : Grid} (hg : WellFormed g) {r c : Nat}
    (hr : r < ROWS) (hc : c < COLS) :
    cellAt (placePiece p g).1 r c =
      if Covers p.x p.y p.shape.coords r c then some Cell.locked else cellAt g r c :=
  placeCoords_cellAt p.x p.y p.shape.coords g false hg r c hr hc

theorem placePiece_flag (p : Piece) (g : Grid) :
    (placePiece p g).2 = true ↔
      ∃ d ∈ p.shape.coords, (0 ≤ p.y + d.y ∧ p.y + d.y < 4) ∧ 0 ≤ p.x + d.x ∧ p.x + d.x < 10 := by
  unfold placePiece
  rw [placeCoords_flag]
  simp

theorem placePiece_uniform {p : Piece} {g : Grid} (hg : WellFormed g) (hu : UniformRows g)
    (hfree : checkCollision p.x p.y p.shape g = some false) :
    UniformRows (placePiece p g).1 := by
  apply placeCoords_uniform p.x p.y p.shape.coords g false hg hu
  intro r c _ _ hcov
  rw [covered_free hg hfree hcov]
  simp

theorem placePiece_top {p : Piece} {g : Grid} (hg : WellFormed g) (ht : TopEmpty g)
    (hflag : (placePiece p g).2 = false) : TopEmpty (placePiece p g).1 := by
  intro r c hr hc
  have hr2 : r < ROWS := by unfold SAFE_ZONE_START_ROW at hr; unfold ROWS; omega
  rw [placePiece_cellAt p hg hr2 hc, if_neg]
  · exact ht r c hr hc
  · rintro ⟨d, hd, h1, h2⟩
    have : (placePiece p g).2 = true := by
      rw [placePiece_flag]
      unfold SAFE_ZONE_START_ROW at hr
      unfold COLS at hc
      exact ⟨d, hd, ⟨by omega, by omega⟩, by omega, by omega⟩
    rw [hflag] at this
    exact absurd this (by simp)

theorem lockPiece_unfold {s : State} {p : Piece} (hp : s.activePiece = some p) (rnd : Fin 3) :
    lockPiece s rnd =
      if (placePiece p s.grid).2 = true then
        some (handleLoss { s with grid := (placePiece p s.grid).1, activePiece := none })
      else if (clearFullRows (placePiece p s.grid).1).2 ≥ WIN_ROW_COUNT then
        some (handleWin
          { s with grid := (clearFullRows (placePiece p s.grid).1).1, activePiece := none })
      else
        spawnPiece s.grid
          { s with grid := (clearFullRows (placePiece p s.grid).1).1, activePiece := none } rnd := by
  unfold lockPiece
  rw [hp]

theorem lockPiece_eq {s : State} {p : Piece} (hp : s.activePiece = some p)
    (hg : WellFormed s.grid) (ht : TopEmpty s.grid) (rnd : Fin 3) :
    lockPiece s rnd =
      if (placePiece p s.grid).2 = true then
        some (handleLoss { s with grid := (placePiece p s.grid).1, activePiece := none })
      else if (clearFullRows (placePiece p s.grid).1).2 ≥ WIN_ROW_COUNT then
        some (handleWin
          { s with grid := (clearFullRows (placePiece p s.grid).1).1, activePiece := none })
      else
        some { s with grid := (clearFullRows (placePiece p s.grid).1).1,
                      activePiece := some { shape := randomShape rnd, x := 0, y := 0 } } := by
  rw [lockPiece_unfold hp, spawnPiece_ok hg ht]

theorem movePiece_unfold {s : State} {p : Piece} (hp : s.activePiece = some p)
    (dx dy : Int) (rnd : Fin 3) :
    movePiece s dx dy rnd =
      match checkCollision (p.x + dx) (p.y + dy) p.shape s.grid with
      | none => none
      | some false =>
        some { s with activePiece := some { shape := p.shape, x := p.x + dx, y := p.y + dy } }
      | some true => if dy > 0 then lockPiece s rnd else some s := by
  unfold movePiece
  rw [hp]

theorem canMove_iff (s : State) :
    canMove s = true ↔
      s.isActive = true ∧ s.isGameOver = false ∧ ∃ p, s.activePiece = some p := by
  unfold canMove
  cases s.isActive <;> cases s.isGameOver <;> cases s.activePiece <;> simp

/-! ## The invariant -/

theorem emptyGrid_cellAt {r c : Nat} (hr : r < ROWS) (hc : c < COLS) :
    cellAt emptyGrid r c = some Cell.empty := by
  unfold cellAt emptyGrid
  rw [List.getElem?_replicate_of_lt hr]
  exact List.getElem?_replicate_of_lt hc

theorem emptyGrid_top : TopEmpty emptyGrid := by
  intro r c hr hc
  exact emptyGrid_cellAt (by unfold SAFE_ZONE_START_ROW at hr; unfold ROWS; omega) hc

theorem emptyGrid_uniform : UniformRows emptyGrid := by
  intro row hrow
  right
  intro c hc
  rw [emptyGrid, List.mem_replicate] at hrow
  rw [hrow.2, List.mem_replicate] at hc
  rw [hc.2]
  simp

theorem inv_initial : Inv initialState where
  wf := by decide
  uniform := emptyGrid_uniform
  top := fun _ => emptyGrid_top
  piece := by intro p hp; simp [initialState] at hp
  active := rfl
  result := rfl

theorem inv_startNewGame (s : State) : Inv (startNewGame s) := inv_initial

theorem inv_moved {s : State} (hinv : Inv s) {p : Piece} (hp : s.activePiece = some p)
    {dx dy : Int} (hdy : 0 ≤ dy)
    (hfree : checkCollision (p.x + dx) (p.y + dy) p.shape s.grid = some false) :
    Inv { s with activePiece := some { shape := p.shape, x := p.x + dx, y := p.y + dy } } where
  wf := hinv.wf
  uniform := hinv.uniform
  top := hinv.top
  piece := by
    intro q hq
    simp only [Option.some.injEq] at hq
    subst hq
    have := (hinv.piece p hp)
    exact ⟨this.1, by simp only; omega, hfree⟩
  active := by
    have := hinv.active
    rw [hp] at this
    simpa using this
  result := hinv.result

theorem inv_spawned {s : State} (hwf : WellFormed s.grid) (hu : UniformRows s.grid)
    (ht : TopEmpty s.grid) (ha : s.isActive = true) (ho : s.isGameOver = false)
    (hres : s.gameResult = none) (rnd : Fin 3) :
    Inv { s with activePiece := some { shape := randomShape rnd, x := 0, y := 0 } } where
  wf := hwf
  uniform := hu
  top := fun _ => ht
  piece := by
    intro q hq
    simp only [Option.some.injEq] at hq
    subst hq
    exact ⟨randomShape_mem rnd, le_refl _, spawn_free hwf ht rnd⟩
  active := by simp [ha, ho]
  result := by simp [hres, ho]

theorem inv_lock {s : State} (hinv : Inv s) {p : Piece} (hp : s.activePiece = some p)
    (ha : s.isActive = true) (ho : s.isGameOver = false) (rnd : Fin 3) {t : State}
    (ht : lockPiece s rnd = some t) : Inv t := by
  have hpc := hinv.piece p hp
  have htop := hinv.top ho
  have hwf1 := placePiece_wf p hinv.wf
  have hu1 := placePiece_uniform hinv.wf hinv.uniform hpc.2.2
  rw [lockPiece_eq hp hinv.wf htop] at ht
  split_ifs at ht with hflag hwin
  · simp only [Option.some.injEq] at ht
    subst ht
    exact { wf := hwf1, uniform := hu1, top := by intro h; simp [handleLoss] at h,
            piece := by intro q hq; simp [handleLoss] at hq,
            active := by simp [handleLoss], result := by simp [handleLoss] }
  · simp only [Option.some.injEq] at ht
    subst ht
    exact { wf := clearFullRows_wf hwf1, uniform := clearFullRows_uniform hu1,
            top := by intro h; simp [handleWin] at h,
            piece := by intro q hq; simp [handleWin] at hq,
            active := by simp [handleWin], result := by simp [handleWin] }
  · simp only [Option.some.injEq] at ht
    subst ht
    have hflag2 : (placePiece p s.grid).2 = false := by simpa using hflag
    have hres : s.gameResult = none := by
      have := hinv.result
      rw [ho] at this
      simpa using this
    exact inv_spawned (s := { s with grid := (clearFullRows (placePiece p s.grid).1).1 })
      (clearFullRows_wf hwf1) (clearFullRows_uniform hu1)
      (clearFullRows_top (placePiece_top hinv.wf htop hflag2)) ha ho hres rnd

theorem inv_movePiece {s : State} (hinv : Inv s) (hmove : canMove s = true) {dx dy : Int}
    (hdy : 0 ≤ dy) (rnd : Fin 3) {t : State} (ht : movePiece s dx dy rnd = some t) : Inv t := by
  obtain ⟨ha, ho, p, hp⟩ := (canMove_iff s).mp hmove
  rw [movePiece_unfold hp] at ht
  rcases checkCollision_total hinv.wf (p.x + dx) (p.y + dy) p.shape with hc | hc
  · rw [hc] at ht
    simp only at ht
    split_ifs at ht
    · exact inv_lock hinv hp ha ho rnd ht
    · simp only [Option.some.injEq] at ht
      subst ht
      exact hinv
  · rw [hc] at ht
    simp only [Option.some.injEq] at ht
    subst ht
    exact inv_moved hinv hp hdy hc

theorem inv_handleBoardClick {s : State} (hinv : Inv s) (rnd : Fin 3) {t : State}
    (ht : handleBoardClick s rnd = some t) : Inv t := by
  unfold handleBoardClick at ht
  cases ha : s.isActive
  · have hnone : s.activePiece = none := by
      have := hinv.active
      rw [ha] at this
      simpa using this
    cases ho : s.isGameOver
    · have hres : s.gameResult = none := by
        have := hinv.result
        rw [ho] at this
        simpa using this
      simp only [ha, hnone, ho, Bool.not_false, Option.isNone_none, Bool.and_self, if_true] at ht
      rw [spawnPiece_ok hinv.wf (hinv.top ho)] at ht
      simp only [Option.some.injEq] at ht
      subst ht
      have key := inv_spawned (s := { s with isActive := true }) hinv.wf hinv.uniform
        (hinv.top ho) rfl ho hres rnd
      simpa [ho] using key
    · simp only [ha, hnone, ho, Bool.not_false, Option.isNone_none, Bool.not_true,
        Bool.and_false, if_true, Bool.false_eq_true, if_false, Option.some.injEq] at ht
      subst ht
      exact { wf := hinv.wf, uniform := hinv.uniform,
              top := by intro h; simp [ho] at h,
              piece := by intro q hq; simp [hnone] at hq,
              active := by simp [hnone, ho],
              result := by have := hinv.result; rw [ho] at this; simpa using this }
  · simp only [ha, Bool.not_true, Bool.false_eq_true, if_false, Option.some.injEq] at ht
    subst ht
    exact hinv

theorem inv_step {s : State} (hinv : Inv s) (c : Command) (rnd : Fin 3) {t : State}
    (ht : step s c rnd = some t) : Inv t := by
  cases c with
  | activate => exact inv_handleBoardClick hinv rnd ht
  | tick =>
    simp only [step, tick] at ht
    split_ifs at ht with hm
    · exact inv_movePiece hinv hm (by decide) rnd ht
    · simp only [Option.some.injEq] at ht
      subst ht
      exact hinv
  | moveLeft =>
    simp only [step, moveLeft] at ht
    split_ifs at ht with hm
    · exact inv_movePiece hinv hm (le_refl 0) rnd ht
    · simp only [Option.some.injEq] at ht
      subst ht
      exact hinv
  | moveRight =>
    simp only [step, moveRight] at ht
    split_ifs at ht with hm
    · exact inv_movePiece hinv hm (le_refl 0) rnd ht
    · simp only [Option.some.injEq] at ht
      subst ht
      exact hinv
  | reset =>
    simp only [step, Option.some.injEq] at ht
    subst ht
    exact inv_startNewGame s

theorem reachable_inv {s : State} (h : Reachable s) : Inv s := by
  induction h with
  | init => exact inv_initial
  | next c rnd _ hstep ih => exact inv_step ih c rnd hstep

/-- Every command returns a state on a well-formed grid: no index fails. -/
theorem step_total {s : State} (hg : WellFormed s.grid) (c : Command) (rnd : Fin 3) :
    ∃ t, step s c rnd = some t := by
  have hspawn : ∀ u : State, ∃ t, spawnPiece s.grid u rnd = some t := by
    intro u
    unfold spawnPiece
    rcases checkCollision_total hg 0 0 (randomShape rnd) with h | h <;> simp [h]
  have hmove : ∀ dx dy : Int, ∃ t, movePiece s dx dy rnd = some t := by
    intro dx dy
    cases hp : s.activePiece with
    | none => exact ⟨s, by unfold movePiece; rw [hp]⟩
    | some p =>
      rw [movePiece_unfold hp]
      rcases checkCollision_total hg (p.x + dx) (p.y + dy) p.shape with h | h
      · rw [h]
        simp only
        split_ifs
        · rw [lockPiece_unfold hp]
          split_ifs
          · exact ⟨_, rfl⟩
          · exact ⟨_, rfl⟩
          · exact hspawn _
        · exact ⟨_, rfl⟩
      · rw [h]
        exact ⟨_, rfl⟩
  cases c with
  | activate =>
    simp only [step, handleBoardClick]
    split_ifs
    · exact hspawn _
    · exact ⟨_, rfl⟩
    · exact ⟨_, rfl⟩
  | tick => simp only [step, tick]; split_ifs; exact hmove _ _; exact ⟨_, rfl⟩
  | moveLeft => simp only [step, moveLeft]; split_ifs; exact hmove _ _; exact ⟨_, rfl⟩
  | moveRight => simp only [step, moveRight]; split_ifs; exact hmove _ _; exact ⟨_, rfl⟩
  | reset => exact ⟨_, rfl⟩

/-! ## Lateral moves -/

/-- C2. In a Running state with an active piece at `(x, y)`, `moveLeft`
(`dx = -1`) and `moveRight` (`dx = +1`) return a state whose piece keeps its
shape and its row and sits at column `x + dx` when the candidate position is
free and at column `x` when it collides; the grid, `isActive`, `isGameOver`
and `gameResult` are those of the state before, so no lock has run. -/
theorem lateral_move (s : State) (p : Piece) (c : Command) (dx : Int) (rnd : Fin 3)
    (hg : WellFormed s.grid) (hrun : s.isActive = true ∧ s.isGameOver = false)
    (hp : s.activePiece = some p)
    (hc : (c = Command.moveLeft ∧ dx = -1) ∨ (c = Command.moveRight ∧ dx = 1)) :
    ∃ b t, checkCollision (p.x + dx) p.y p.shape s.grid = some b ∧ step s c rnd = some t ∧
      t.activePiece =
        some { shape := p.shape, x := if b = true then p.x else p.x + dx, y := p.y } ∧
      t.grid = s.grid ∧ t.isActive = s.isActive ∧ t.isGameOver = s.isGameOver ∧
      t.gameResult = s.gameResult := by
  have hm : canMove s = true := (canMove_iff s).mpr ⟨hrun.1, hrun.2, p, hp⟩
  have hstep : step s c rnd = movePiece s dx 0 rnd := by
    rcases hc with ⟨rfl, rfl⟩ | ⟨rfl, rfl⟩
    · simp only [step, moveLeft, hm, if_true]
    · simp only [step, moveRight, hm, if_true]
  rw [hstep, movePiece_unfold hp]
  rcases checkCollision_total hg (p.x + dx) (p.y + 0) p.shape with h | h
  · refine ⟨true, s, by simpa using h, ?_, ?_, rfl, rfl, rfl, rfl⟩
    · rw [h]
      simp
    · simp [hp]
  · refine ⟨false,
      { s with activePiece := some { shape := p.shape, x := p.x + dx, y := p.y + 0 } },
      by simpa using h, ?_, ?_, rfl, rfl, rfl, rfl⟩
    · rw [h]
    · simp

/-- C2, scenario of the specification: the 1x1 piece at column 9 receiving
`moveRight` stays at column 9. -/
theorem lateral_move_witness :
    ∃ t, step (runningWith pieceAtRightWall) Command.moveRight 0 = some t ∧
      t.activePiece = some pieceAtRightWall ∧ t.grid = emptyGrid := by
  obtain ⟨b, t, hb, ht, hpiece, hgrid, _⟩ :=
    lateral_move (runningWith pieceAtRightWall) pieceAtRightWall Command.moveRight 1 0
      (by decide) ⟨rfl, rfl⟩ rfl (Or.inr ⟨rfl, rfl⟩)
  have hcol : checkCollision (pieceAtRightWall.x + 1) pieceAtRightWall.y
      pieceAtRightWall.shape (runningWith pieceAtRightWall).grid = some true := by decide
  rw [hcol] at hb
  have hbt : b = true := by injection hb with h; exact h.symm
  subst hbt
  exact ⟨t, ht, by simpa using hpiece, hgrid⟩

/-! ## Gravity -/

/-- C3. In a Running state with an active piece at `(x, y)`, a gravity tick
returns a state.  When `(x, y + 1)` is free the piece is at `(x, y + 1)` and
the grid is unchanged.  When it collides the piece is locked: the piece that
was falling is gone (the active piece is absent or is the piece just spawned
at `(0, 0)`) and every board cell it covered at `(x, y)` is Locked or Cleared
in the new grid. -/
theorem gravity_tick (s : State) (p : Piece) (rnd : Fin 3)
    (hg : WellFormed s.grid) (hrun : s.isActive = true ∧ s.isGameOver = false)
    (hp : s.activePiece = some p) :
    ∃ b t, checkCollision p.x (p.y + 1) p.shape s.grid = some b ∧
      step s Command.tick rnd = some t ∧
      (b = false →
        t.activePiece = some { shape := p.shape, x := p.x, y := p.y + 1 } ∧ t.grid = s.grid) ∧
      (b = true →
        (t.activePiece = none ∨
          t.activePiece = some { shape := randomShape rnd, x := 0, y := 0 }) ∧
        ∀ d ∈ p.shape.coords, ∀ r c : Nat, p.y + d.y = r → p.x + d.x = c → r < 12 → c < 10 →
          (cellAt t.grid r c = some Cell.locked ∨ cellAt t.grid r c = some Cell.green)) := by
  have hm : canMove s = true := (canMove_iff s).mpr ⟨hrun.1, hrun.2, p, hp⟩
  have hstep : step s Command.tick rnd = movePiece s 0 1 rnd := by
    simp only [step, tick, hm, if_true]
  have hwf1 := placePiece_wf p hg
  have hplaced : ∀ d ∈ p.shape.coords, ∀ r c : Nat, p.y + d.y = r → p.x + d.x = c →
      r < 12 → c < 10 → cellAt (placePiece p s.grid).1 r c = some Cell.locked := by
    intro d hd r c h1 h2 hr hc
    rw [placePiece_cellAt p hg hr hc, if_pos ⟨d, hd, h1, h2⟩]
  have hcleared : ∀ d ∈ p.shape.coords, ∀ r c : Nat, p.y + d.y = r → p.x + d.x = c →
      r < 12 → c < 10 →
      (cellAt (clearFullRows (placePiece p s.grid).1).1 r c = some Cell.locked ∨
        cellAt (clearFullRows (placePiece p s.grid).1).1 r c = some Cell.green) := by
    intro d hd r c h1 h2 hr hc
    rcases clearFullRows_cellAt hwf1 hr hc with h | h
    · exact Or.inr h
    · left; rw [h]; exact hplaced d hd r c h1 h2 hr hc
  rw [hstep, movePiece_unfold hp]
  rcases checkCollision_total hg (p.x + 0) (p.y + 1) p.shape with h | h
  · refine ⟨true, ?_⟩
    rw [h]
    simp only [add_zero] at h
    simp only [gt_iff_lt, zero_lt_one, if_true]
    rw [lockPiece_unfold hp]
    split_ifs with hflag hwin
    · exact ⟨_, h, rfl, by simp, fun _ => ⟨Or.inl rfl,
        fun d hd r c h1 h2 hr hc => Or.inl (hplaced d hd r c h1 h2 hr hc)⟩⟩
    · exact ⟨_, h, rfl, by simp, fun _ => ⟨Or.inl rfl, hcleared⟩⟩
    · unfold spawnPiece
      rcases checkCollision_total hg 0 0 (randomShape rnd) with h0 | h0
      · simp only [h0]
        exact ⟨_, h, rfl, by simp, fun _ => ⟨Or.inl rfl, hcleared⟩⟩
      · simp only [h0]
        exact ⟨_, h, rfl, by simp, fun _ => ⟨Or.inr rfl, hcleared⟩⟩
  · refine ⟨false,
      { s with activePiece := some { shape := p.shape, x := p.x + 0, y := p.y + 1 } },
      by simpa using h, ?_, ?_, by simp⟩
    · rw [h]
    · intro _
      simp

/-- C3, scenario of the specification: the piece whose lowest cell is on
row 11 is locked by the next tick. -/
theorem gravity_tick_witness :
    ∃ t, step (runningWith pieceOnFloor) Command.tick 0 = some t ∧
      (cellAt t.grid 11 0 = some Cell.locked ∨ cellAt t.grid 11 0 = some Cell.green) := by
  obtain ⟨b, t, hb, ht, _, hlock⟩ :=
    gravity_tick (runningWith pieceOnFloor) pieceOnFloor 0 (by decide) ⟨rfl, rfl⟩ rfl
  have hcol : checkCollision pieceOnFloor.x (pieceOnFloor.y + 1) pieceOnFloor.shape
      (runningWith pieceOnFloor).grid = some true := by decide
  rw [hcol] at hb
  have hbt : b = true := by injection hb with h; exact h.symm
  exact ⟨t, ht, (hlock hbt).2 ⟨0, 0⟩ (by decide) 11 0 (by decide) (by decide) (by decide)
    (by decide)⟩

/-! ## Which commands lock -/

theorem step_lock {s : State} {p : Piece} (ha : s.isActive = true) (ho : s.isGameOver = false)
    (hp : s.activePiece = some p)
    (hcol : checkCollision p.x (p.y + 1) p.shape s.grid = some true) (rnd : Fin 3) :
    step s Command.tick rnd = lockPiece s rnd := by
  have hm : canMove s = true := (canMove_iff s).mpr ⟨ha, ho, p, hp⟩
  simp only [step, tick, hm, if_true]
  rw [movePiece_unfold hp]
  simp only [add_zero, hcol, gt_iff_lt, zero_lt_one, if_true]

theorem step_no_lock {s t : State} (hinv : Inv s) {c : Command} {rnd : Fin 3}
    (ht : step s c rnd = some t)
    (hno : ¬ (c = Command.tick ∧ s.isActive = true ∧ s.isGameOver = false ∧
      ∃ p, s.activePiece = some p ∧
        checkCollision p.x (p.y + 1) p.shape s.grid = some true)) :
    t.gameResult = s.gameResult ∨ t.gameResult = none := by
  have hmoved : ∀ dx dy : Int, canMove s = true → movePiece s dx dy rnd = some t →
      (∀ p, s.activePiece = some p → dy > 0 →
        checkCollision (p.x + dx) (p.y + dy) p.shape s.grid ≠ some true) →
      t.gameResult = s.gameResult := by
    intro dx dy hm hmv hfree
    obtain ⟨_, _, p, hp⟩ := (canMove_iff s).mp hm
    rw [movePiece_unfold hp] at hmv
    rcases checkCollision_total hinv.wf (p.x + dx) (p.y + dy) p.shape with h | h
    · rw [h] at hmv
      simp only at hmv
      split_ifs at hmv with hdy
      · exact absurd h (hfree p hp hdy)
      · simp only [Option.some.injEq] at hmv
        rw [← hmv]
    · rw [h] at hmv
      simp only [Option.some.injEq] at hmv
      rw [← hmv]
  cases c with
  | activate =>
    left
    simp only [step, handleBoardClick] at ht
    split_ifs at ht with h1 h2
    · have ho : s.isGameOver = false := by
        cases h : s.isGameOver
        · rfl
        · rw [h] at h2; simp at h2
      rw [spawnPiece_ok hinv.wf (hinv.top ho)] at ht
      simp only [Option.some.injEq] at ht
      rw [← ht]
    · simp only [Option.some.injEq] at ht
      rw [← ht]
    · simp only [Option.some.injEq] at ht
      rw [← ht]
  | tick =>
    left
    simp only [step, tick] at ht
    split_ifs at ht with hm
    · apply hmoved 0 1 hm ht
      intro p hp _ hcol
      obtain ⟨ha, ho, _⟩ := (canMove_iff s).mp hm
      exact hno ⟨rfl, ha, ho, p, hp, by simpa using hcol⟩
    · simp only [Option.some.injEq] at ht
      rw [← ht]
  | moveLeft =>
    left
    simp only [step, moveLeft] at ht
    split_ifs at ht with hm
    · exact hmoved (-1) 0 hm ht (fun _ _ h => absurd h (by decide))
    · simp only [Option.some.injEq] at ht
      rw [← ht]
  | moveRight =>
    left
    simp only [step, moveRight] at ht
    split_ifs at ht with hm
    · exact hmoved 1 0 hm ht (fun _ _ h => absurd h (by decide))
    · simp only [Option.some.injEq] at ht
      rw [← ht]
  | reset =>
    right
    simp only [step, Option.some.injEq] at ht
    rw [← ht]
    rfl

theorem placed_flag_inv {s : State} (hinv : Inv s) {p : Piece} (hp : s.activePiece = some p) :
    (placePiece p s.grid).2 = true ↔ ∃ d ∈ p.shape.coords, p.y + d.y < 4 := by
  obtain ⟨hshape, hy, hfree⟩ := hinv.piece p hp
  rw [placePiece_flag]
  constructor
  · rintro ⟨d, hd, h1, _⟩
    exact ⟨d, hd, h1.2⟩
  · rintro ⟨d, hd, h1⟩
    have ho := shapes_offsets hshape hd
    have hf := free_cells hinv.wf hfree hd
    exact ⟨d, hd, ⟨by omega, h1⟩, hf.1, hf.2.1⟩

theorem firstCell_count {g : Grid} (hg : WellFormed g) (hu : UniformRows g) :
    (g.filter (fun row => decide (row[0]? = some Cell.green))).length = clearedRowCount g := by
  unfold clearedRowCount
  congr 1
  apply List.filter_congr
  intro row hrow
  have hlen : row.length = COLS := hg.2 row hrow
  have h0 : 0 < row.length := by rw [hlen]; decide
  have hget : row[0]? = some row[0] := List.getElem?_eq_getElem h0
  have hmem : row[0] ∈ row := List.getElem_mem _
  rw [hget]
  rcases hu row hrow with hall | hnone
  · have h1 : row[0] = Cell.green := hall _ hmem
    have h2 : row.all (fun cell => decide (cell = Cell.green)) = true := by
      rw [List.all_eq_true]
      intro x hx
      simp [hall x hx]
    rw [h2, h1]
    simp
  · have h1 : row[0] ≠ Cell.green := hnone _ hmem
    have h2 : row.all (fun cell => decide (cell = Cell.green)) = false := by
      rw [Bool.eq_false_iff]
      intro hall
      rw [List.all_eq_true] at hall
      have := hall _ hmem
      simp at this
      exact h1 this
    rw [h2]
    simp [h1]

/-- C1 at a concrete input: the 1x1 shape at column 10 of the empty grid. -/
theorem checkCollision_iff_witness :
    WellFormed emptyGrid ∧
      ∃ b, checkCollision 10 0 (randomShape 2) emptyGrid = some b ∧
        (b = true ↔ ∃ c ∈ (randomShape 2).coords,
          10 + c.x < 0 ∨ 10 + c.x ≥ 10 ∨ 0 + c.y ≥ 12 ∨
            (0 + c.y ≥ 0 ∧
              (cellAt emptyGrid (0 + c.y).toNat (10 + c.x).toNat = some Cell.locked ∨
                cellAt emptyGrid (0 + c.y).toNat (10 + c.x).toNat = some Cell.green))) :=
  ⟨by decide, (checkCollision_iff 10 0 (randomShape 2) emptyGrid (by decide)).1⟩

/-! ## Loss and win -/

theorem reachable_run {s : State} (hs : Reachable s) :
    ∀ (cmds : List (Command × Fin 3)) (t : State), run s cmds = some t → Reachable t := by
  intro cmds
  induction cmds generalizing s with
  | nil =>
    intro t ht
    simp only [run, Option.some.injEq] at ht
    rw [← ht]
    exact hs
  | cons cr rest ih =>
    intro t ht
    obtain ⟨c, rnd⟩ := cr
    simp only [run] at ht
    cases hstep : step s c rnd with
    | none => rw [hstep] at ht; exact absurd ht (by simp)
    | some u =>
      rw [hstep] at ht
      exact ih (Reachable.next c rnd hs hstep) t ht

theorem preLoss_reachable : Reachable preLoss :=
  reachable_run Reachable.init lossTrace preLoss (by decide)

theorem preWin_reachable : Reachable preWin :=
  reachable_run Reachable.init winTrace preWin (by decide)

/-- C4. From a reachable state, every command returns a state; an outcome
of Loss always comes with `isGameOver`; and, when the outcome was not
already Loss, the new outcome is Loss exactly when the command is a tick in a
Running state whose piece cannot descend (so it is locked) and has a cell on
a row below 4.  Activation, lateral moves, reset and the spawn after a
non-losing lock never produce Loss. -/
theorem loss_iff (s : State) (c : Command) (rnd : Fin 3) (hr : Reachable s) :
    ∃ t, step s c rnd = some t ∧
      (t.gameResult = some GameResult.loss → t.isGameOver = true) ∧
      (s.gameResult ≠ some GameResult.loss →
        (t.gameResult = some GameResult.loss ↔
          (c = Command.tick ∧ s.isActive = true ∧ s.isGameOver = false ∧
            ∃ p, s.activePiece = some p ∧
              checkCollision p.x (p.y + 1) p.shape s.grid = some true ∧
              ∃ d ∈ p.shape.coords, p.y + d.y < 4))) := by
  have hinv := reachable_inv hr
  obtain ⟨t, ht⟩ := step_total hinv.wf c rnd
  have hinvt := inv_step hinv c rnd ht
  refine ⟨t, ht, ?_, ?_⟩
  · intro h
    have := hinvt.result
    rw [h] at this
    simpa using this.symm
  · intro hs
    by_cases hlock : c = Command.tick ∧ s.isActive = true ∧ s.isGameOver = false ∧
        ∃ p, s.activePiece = some p ∧ checkCollision p.x (p.y + 1) p.shape s.grid = some true
    · obtain ⟨rfl, ha, ho, p, hp, hcol⟩ := hlock
      rw [step_lock ha ho hp hcol, lockPiece_eq hp hinv.wf (hinv.top ho)] at ht
      have hflag_iff := placed_flag_inv hinv hp
      split_ifs at ht with hflag hwin
      · simp only [Option.some.injEq] at ht
        subst ht
        refine Iff.intro (fun _ => ?_) (fun _ => rfl)
        exact ⟨rfl, ha, ho, p, hp, hcol, hflag_iff.mp hflag⟩
      · simp only [Option.some.injEq] at ht
        subst ht
        simp only [handleWin, Option.some.injEq, reduceCtorEq, false_iff]
        rintro ⟨_, _, _, q, hq, _, hd⟩
        rw [hp] at hq
        simp only [Option.some.injEq] at hq
        subst hq
        exact hflag (hflag_iff.mpr hd)
      · simp only [Option.some.injEq] at ht
        subst ht
        simp only [hs, false_iff]
        rintro ⟨_, _, _, q, hq, _, hd⟩
        rw [hp] at hq
        simp only [Option.some.injEq] at hq
        subst hq
        exact hflag (hflag_iff.mpr hd)
    · have hres := step_no_lock hinv ht hlock
      constructor
      · intro h
        rcases hres with h1 | h1
        · exact absurd (h1 ▸ h) hs
        · rw [h1] at h
          exact absurd h (by simp)
      · rintro ⟨h1, h2, h3, p, hp, hcol, _⟩
        exact absurd ⟨h1, h2, h3, p, hp, hcol⟩ hlock

/-- C4 at a concrete reachable state: four 2x1 blocks are stacked in
column 0 and a fifth rests on them with its cells on rows 2 and 3; the next
tick locks it and the game is lost. -/
theorem loss_iff_witness :
    Reachable preLoss ∧
      ∃ t, step preLoss Command.tick 0 = some t ∧
        t.gameResult = some GameResult.loss ∧ t.isGameOver = true := by
  obtain ⟨t, ht, hover, hiff⟩ := loss_iff preLoss Command.tick 0 preLoss_reachable
  have hloss : t.gameResult = some GameResult.loss :=
    (hiff (by decide)).mpr
      ⟨rfl, rfl, rfl, { shape := randomShape 1, x := 0, y := 2 }, rfl, by decide,
        ⟨0, 0⟩, by decide, by decide⟩
  exact ⟨preLoss_reachable, t, ht, hloss, hover hloss⟩

/-- C5. From a reachable state, every command returns a state; an outcome
of Win always comes with `isGameOver` and no active piece; when the outcome
was not already Win, the new outcome is Win exactly when the command is a
tick in a Running state whose piece cannot descend, none of whose cells is on
a row below 4, and after which at least 5 rows of the new grid are entirely
Cleared; and a non-losing lock that leaves fewer than 5 such rows spawns the
drawn shape at `(0, 0)` and keeps the game Running. -/
theorem win_iff (s : State) (c : Command) (rnd : Fin 3) (hr : Reachable s) :
    ∃ t, step s c rnd = some t ∧
      (t.gameResult = some GameResult.win → t.isGameOver = true ∧ t.activePiece = none) ∧
      (s.gameResult ≠ some GameResult.win →
        (t.gameResult = some GameResult.win ↔
          (c = Command.tick ∧ s.isActive = true ∧ s.isGameOver = false ∧
            ∃ p, s.activePiece = some p ∧
              checkCollision p.x (p.y + 1) p.shape s.grid = some true ∧
              (∀ d ∈ p.shape.coords, 4 ≤ p.y + d.y) ∧
              5 ≤ clearedRowCount t.grid))) ∧
      (c = Command.tick → s.isActive = true → s.isGameOver = false →
        ∀ p, s.activePiece = some p →
          checkCollision p.x (p.y + 1) p.shape s.grid = some true →
          (∀ d ∈ p.shape.coords, 4 ≤ p.y + d.y) → clearedRowCount t.grid < 5 →
          t.activePiece = some { shape := randomShape rnd, x := 0, y := 0 } ∧
            t.isActive = true ∧ t.isGameOver = false ∧ t.gameResult = none) := by
  have hinv := reachable_inv hr
  obtain ⟨t, ht⟩ := step_total hinv.wf c rnd
  have hinvt := inv_step hinv c rnd ht
  have hcount := firstCell_count hinvt.wf hinvt.uniform
  refine ⟨t, ht, ?_, ?_, ?_⟩
  · intro h
    have h1 := hinvt.result
    rw [h] at h1
    have hover : t.isGameOver = true := by simpa using h1.symm
    have h2 := hinvt.active
    rw [hover] at h2
    refine ⟨hover, ?_⟩
    cases hp : t.activePiece with
    | none => rfl
    | some q => rw [hp] at h2; simp at h2
  · intro hs
    by_cases hlock : c = Command.tick ∧ s.isActive = true ∧ s.isGameOver = false ∧
        ∃ p, s.activePiece = some p ∧ checkCollision p.x (p.y + 1) p.shape s.grid = some true
    · obtain ⟨rfl, ha, ho, p, hp, hcol⟩ := hlock
      rw [step_lock ha ho hp hcol, lockPiece_eq hp hinv.wf (hinv.top ho)] at ht
      have hflag_iff := placed_flag_inv hinv hp
      split_ifs at ht with hflag hwin
      · simp only [Option.some.injEq] at ht
        subst ht
        simp only [handleLoss, Option.some.injEq, reduceCtorEq, false_iff]
        rintro ⟨_, _, _, q, hq, _, hd, _⟩
        rw [hp] at hq
        simp only [Option.some.injEq] at hq
        subst hq
        obtain ⟨d, hd1, hd2⟩ := hflag_iff.mp hflag
        have := hd d hd1
        omega
      · simp only [Option.some.injEq] at ht
        subst ht
        refine Iff.intro (fun _ => ?_) (fun _ => rfl)
        refine ⟨rfl, ha, ho, p, hp, hcol, ?_, ?_⟩
        · intro d hd
          by_contra hlt
          exact hflag (hflag_iff.mpr ⟨d, hd, by omega⟩)
        · show 5 ≤ clearedRowCount (clearFullRows (placePiece p s.grid).1).1
          simp only [handleWin] at hcount
          rw [← hcount, ← clearFullRows_count]
          exact hwin
      · simp only [Option.some.injEq] at ht
        subst ht
        simp only [hs, false_iff]
        rintro ⟨_, _, _, q, hq, _, _, hd⟩
        simp only at hcount
        rw [← hcount, ← clearFullRows_count] at hd
        exact hwin hd
    · have hres := step_no_lock hinv ht hlock
      constructor
      · intro h
        rcases hres with h1 | h1
        · exact absurd (h1 ▸ h) hs
        · rw [h1] at h
          exact absurd h (by simp)
      · rintro ⟨h1, h2, h3, p, hp, hcol, _⟩
        exact absurd ⟨h1, h2, h3, p, hp, hcol⟩ hlock
  · rintro rfl ha ho p hp hcol hsafe hlt
    rw [step_lock ha ho hp hcol, lockPiece_eq hp hinv.wf (hinv.top ho)] at ht
    have hflag_iff := placed_flag_inv hinv hp
    have hres : s.gameResult = none := by
      have := hinv.result
      rw [ho] at this
      simpa using this
    split_ifs at ht with hflag hwin
    · obtain ⟨d, hd1, hd2⟩ := hflag_iff.mp hflag
      have := hsafe d hd1
      omega
    · simp only [Option.some.injEq] at ht
      subst ht
      simp only [handleWin] at hcount hlt
      rw [← hcount, ← clearFullRows_count] at hlt
      exact absurd hwin (by unfold WIN_ROW_COUNT; omega)
    · simp only [Option.some.injEq] at ht
      subst ht
      exact ⟨rfl, ha, ho, hres⟩

/-- C5 at a concrete reachable state: rows 8 to 11 are Cleared and the
last 2x2 block of the third layer rests on them; the next tick locks it,
rows 6 and 7 become Cleared and the game is won. -/
theorem win_iff_witness :
    Reachable preWin ∧
      ∃ t, step preWin Command.tick 0 = some t ∧
        t.gameResult = some GameResult.win ∧ t.isGameOver = true ∧ t.activePiece = none := by
  obtain ⟨t, ht, hover, hiff, _⟩ := win_iff preWin Command.tick 0 preWin_reachable
  have hstep : step preWin Command.tick 0 = some afterWin := by decide
  have ht2 : t = afterWin := by
    rw [hstep] at ht
    injection ht with h
    exact h.symm
  have hwin : t.gameResult = some GameResult.win :=
    (hiff (by decide)).mpr
      ⟨rfl, rfl, rfl, { shape := randomShape 0, x := 8, y := 6 }, rfl, by decide,
        by decide, by rw [ht2]; decide⟩
  exact ⟨preWin_reachable, t, ht, hwin, hover hwin⟩

/-! ## The losing lock -/

/-- C6. When the piece being locked has a board cell on a row below 4,
`lockPiece` returns a state whose grid has the same dimensions and is the
old grid with exactly the board cells of the piece set to Locked: no cell
becomes Cleared, whatever rows the placement completed; the outcome is Loss,
`isGameOver` is set and there is no active piece. -/
theorem losing_lock (s : State) (p : Piece) (rnd : Fin 3) (hg : WellFormed s.grid)
    (hp : s.activePiece = some p)
    (hhigh : ∃ d ∈ p.shape.coords,
      (0 ≤ p.y + d.y ∧ p.y + d.y < 4) ∧ 0 ≤ p.x + d.x ∧ p.x + d.x < 10) :
    ∃ t, lockPiece s rnd = some t ∧ WellFormed t.grid ∧
      (∀ r c : Nat, r < 12 → c < 10 →
        (∃ d ∈ p.shape.coords, p.y + d.y = (r : Int) ∧ p.x + d.x = (c : Int)) →
        cellAt t.grid r c = some Cell.locked) ∧
      (∀ r c : Nat, r < 12 → c < 10 →
        ¬ (∃ d ∈ p.shape.coords, p.y + d.y = (r : Int) ∧ p.x + d.x = (c : Int)) →
        cellAt t.grid r c = cellAt s.grid r c) ∧
      (∀ r c : Nat, r < 12 → c < 10 →
        cellAt t.grid r c = some Cell.green → cellAt s.grid r c = some Cell.green) ∧
      t.gameResult = some GameResult.loss ∧ t.isGameOver = true ∧ t.activePiece = none := by
  have hflag : (placePiece p s.grid).2 = true := (placePiece_flag p s.grid).mpr hhigh
  refine ⟨handleLoss { s with grid := (placePiece p s.grid).1, activePiece := none }, ?_,
    placePiece_wf p hg, ?_, ?_, ?_, rfl, rfl, rfl⟩
  · rw [lockPiece_unfold hp, if_pos hflag]
  · intro r c hr hc hcov
    show cellAt (placePiece p s.grid).1 r c = some Cell.locked
    have hcov2 : Covers p.x p.y p.shape.coords r c := hcov
    rw [placePiece_cellAt p hg hr hc, if_pos hcov2]
  · intro r c hr hc hcov
    show cellAt (placePiece p s.grid).1 r c = cellAt s.grid r c
    have hcov2 : ¬ Covers p.x p.y p.shape.coords r c := hcov
    rw [placePiece_cellAt p hg hr hc, if_neg hcov2]
  · intro r c hr hc
    show cellAt (placePiece p s.grid).1 r c = some Cell.green → _
    rw [placePiece_cellAt p hg hr hc]
    split_ifs
    · intro h; simp at h
    · exact id

/-- C6 at a concrete input: the 1x1 piece completes row 2; the row stays
Locked and the game is lost. -/
theorem losing_lock_witness :
    ∃ t, lockPiece highState 0 = some t ∧ cellAt t.grid 2 0 = some Cell.locked ∧
      cellAt t.grid 2 9 = some Cell.locked ∧ t.gameResult = some GameResult.loss := by
  obtain ⟨t, ht, _, hcov, hframe, _, hloss, _, _⟩ :=
    losing_lock highState highPiece 0 (by decide) rfl
      ⟨⟨0, 0⟩, by decide, by decide⟩
  refine ⟨t, ht, hcov 2 0 (by decide) (by decide) ⟨⟨0, 0⟩, by decide, by decide⟩, ?_, hloss⟩
  rw [hframe 2 9 (by decide) (by decide) (by decide)]
  decide

/-! ## Row resolution: the claims -/

/-- C8. On a grid of 12 rows of 10 cells, the row-resolution step returns a
grid of the same dimensions; a row all of whose cells are Locked or Cleared
becomes ten Cleared cells, and a row with an Empty cell is returned as it
was. -/
theorem clearFullRows_rows (g : Grid) (hg : WellFormed g) :
    WellFormed (clearFullRows g).1 ∧
      ∀ (r : Nat) (row : List Cell), g[r]? = some row →
        ((∀ cell ∈ row, cell = Cell.locked ∨ cell = Cell.green) →
          (clearFullRows g).1[r]? = some (List.replicate 10 Cell.green)) ∧
        ((∃ cell ∈ row, cell = Cell.empty) → (clearFullRows g).1[r]? = some row) := by
  refine ⟨clearFullRows_wf hg, ?_⟩
  intro r row hrow
  rw [clearFullRows_getElem?, hrow]
  simp only [Option.map_some', Option.some.injEq]
  constructor
  · intro hall
    have hfull : isFull row = true := by
      rw [isFull_iff]
      intro cell hcell
      rcases hall cell hcell with h | h <;> rw [h] <;> simp
    rw [if_pos hfull]
    rfl
  · rintro ⟨cell, hcell, he⟩
    have hfull : ¬ isFull row = true := by
      rw [isFull_iff]
      intro hall
      exact hall cell hcell he
    rw [if_neg hfull]

/-- C8 at a concrete input: the grid whose row 2 lacks one cell. -/
theorem clearFullRows_rows_witness :
    WellFormed almostFullHighRow ∧ WellFormed (clearFullRows almostFullHighRow).1 :=
  ⟨by decide, (clearFullRows_rows almostFullHighRow (by decide)).1⟩

/-- C9. The row-resolution step is idempotent on every grid: run on its
own output it returns the same grid and the same count of Cleared rows. -/
theorem clearFullRows_idempotent (g : Grid) :
    clearFullRows (clearFullRows g).1 = clearFullRows g := by
  have hrow : ∀ row : List Cell,
      (fun row => if isFull row then List.replicate COLS Cell.green else row)
        ((fun row => if isFull row then List.replicate COLS Cell.green else row) row) =
      (fun row => if isFull row then List.replicate COLS Cell.green else row) row := by
    intro row
    by_cases h : isFull row = true
    · have h2 : isFull (List.replicate COLS Cell.green) = true := by decide
      simp only [h, if_true, h2]
    · simp only [h, if_false, Bool.false_eq_true]
  have hgrid : (clearFullRows (clearFullRows g).1).1 = (clearFullRows g).1 := by
    rw [clearFullRows_grid, clearFullRows_grid, List.map_map]
    apply List.map_congr_left
    intro row _
    exact hrow row
  have hcount : (clearFullRows (clearFullRows g).1).2 = (clearFullRows g).2 := by
    rw [clearFullRows_count, clearFullRows_count, hgrid]
  exact Prod.ext hgrid hcount

/-! ## Cleared rows in reachable states -/

/-- C10. In every reachable state each grid row is Cleared as a whole or
holds no Cleared cell, and the number of rows whose first cell is Cleared
(the count of the lock step) is the number of rows that are entirely
Cleared. -/
theorem cleared_rows_whole (s : State) (hr : Reachable s) :
    (∀ row ∈ s.grid, (∀ c ∈ row, c = Cell.green) ∨ (∀ c ∈ row, c ≠ Cell.green)) ∧
      (s.grid.filter (fun row => decide (row[0]? = some Cell.green))).length =
        (s.grid.filter (fun row => row.all (fun cell => decide (cell = Cell.green)))).length := by
  have hinv := reachable_inv hr
  exact ⟨hinv.uniform, firstCell_count hinv.wf hinv.uniform⟩

/-! ## Counting the cells of a placement -/

theorem wf_cellAt_none {g : Grid} (hg : WellFormed g) {r c : Nat} (h : ROWS ≤ r ∨ COLS ≤ c) :
    cellAt g r c = none := by
  unfold cellAt
  cases hrow : g[r]? with
  | none => rfl
  | some row =>
    simp only
    have hlen : row.length = COLS := hg.2 row (List.getElem?_mem hrow)
    have hr : r < g.length := by
      obtain ⟨h1, _⟩ := List.getElem?_eq_some_iff.mp hrow
      exact h1
    rw [hg.1] at hr
    rcases h with h | h
    · omega
    · exact List.getElem?_eq_none (by omega)

theorem placePiece_frame (p : Piece) {g : Grid} (hg : WellFormed g) (r c : Nat)
    (hcov : ¬ Covers p.x p.y p.shape.coords r c) :
    cellAt (placePiece p g).1 r c = cellAt g r c := by
  by_cases hb : r < ROWS ∧ c < COLS
  · rw [placePiece_cellAt p hg hb.1 hb.2, if_neg hcov]
  · have hout : ROWS ≤ r ∨ COLS ≤ c := by omega
    rw [wf_cellAt_none hg hout, wf_cellAt_none (placePiece_wf p hg) hout]

theorem placePiece_card {g : Grid} (hg : WellFormed g) (p : Piece)
    (hnd : p.shape.coords.Nodup) :
    ((Finset.range ROWS ×ˢ Finset.range COLS).filter (fun rc =>
        cellAt g rc.1 rc.2 = some Cell.empty ∧
          cellAt (placePiece p g).1 rc.1 rc.2 = some Cell.locked)).card =
      (p.shape.coords.filter (fun d =>
        decide ((0 ≤ p.y + d.y ∧ p.y + d.y < 12) ∧ (0 ≤ p.x + d.x ∧ p.x + d.x < 10) ∧
          cellAt g (p.y + d.y).toNat (p.x + d.x).toNat = some Cell.empty))).length := by
  have hset : (Finset.range ROWS ×ˢ Finset.range COLS).filter (fun rc =>
        cellAt g rc.1 rc.2 = some Cell.empty ∧
          cellAt (placePiece p g).1 rc.1 rc.2 = some Cell.locked) =
      (p.shape.coords.filter (fun d =>
        decide ((0 ≤ p.y + d.y ∧ p.y + d.y < 12) ∧ (0 ≤ p.x + d.x ∧ p.x + d.x < 10) ∧
          cellAt g (p.y + d.y).toNat (p.x + d.x).toNat = some Cell.empty))).toFinset.image
        (fun d => ((p.y + d.y).toNat, (p.x + d.x).toNat)) := by
    ext ⟨r, c⟩
    simp only [Finset.mem_filter, Finset.mem_product, Finset.mem_range, Finset.mem_image,
      List.mem_toFinset, List.mem_filter, decide_eq_true_eq, Prod.mk.injEq]
    constructor
    · rintro ⟨⟨hr, hc⟩, hempty, hlocked⟩
      rw [placePiece_cellAt p hg hr hc] at hlocked
      by_cases hcov : Covers p.x p.y p.shape.coords r c
      · obtain ⟨d, hd, h1, h2⟩ := hcov
        unfold ROWS at hr
        unfold COLS at hc
        have e1 : (p.y + d.y).toNat = r := by omega
        have e2 : (p.x + d.x).toNat = c := by omega
        refine ⟨d, ⟨hd, ⟨by omega, by omega⟩, ⟨by omega, by omega⟩, ?_⟩, e1, e2⟩
        rw [e1, e2]
        exact hempty
      · rw [if_neg hcov, hempty] at hlocked
        simp at hlocked
    · rintro ⟨d, ⟨hd, hrow, hcol, hempty⟩, h1, h2⟩
      have hcov : Covers p.x p.y p.shape.coords r c := ⟨d, hd, by omega, by omega⟩
      have hr : r < ROWS := by unfold ROWS; omega
      have hc : c < COLS := by unfold COLS; omega
      rw [h1, h2] at hempty
      refine ⟨⟨hr, hc⟩, hempty, ?_⟩
      rw [placePiece_cellAt p hg hr hc, if_pos hcov]
  rw [hset, Finset.card_image_of_injOn, List.toFinset_card_of_nodup (hnd.filter _)]
  intro d1 hd1 d2 hd2 heq
  simp only [Finset.mem_coe, List.mem_toFinset, List.mem_filter, decide_eq_true_eq] at hd1 hd2
  simp only [Prod.mk.injEq] at heq
  obtain ⟨_, hr1, hc1, _⟩ := hd1
  obtain ⟨_, hr2, hc2, _⟩ := hd2
  cases d1
  cases d2
  simp only [Coord.mk.injEq] at *
  omega

/-- C7, amended.  When `lockPiece` places the active piece, of a catalog
shape at any origin, on a 12x10 grid, the number of board cells that go from
Empty to Locked is the number of cells of the piece that lie on the board
(row in `[0, 12)`, column in `[0, 10)`) on an Empty cell: a cell with a
negative row or otherwise off the board is dropped and not counted.  The grid
keeps its dimensions and every cell the piece does not cover is left as it
was.  In a state reached by atomically applied commands that number is the
number of cells of the piece whose row is not negative. -/
theorem placement_count (s : State) (p : Piece) (hg : WellFormed s.grid)
    (hp : s.activePiece = some p) (hs : p.shape ∈ SHAPES) :
    ((Finset.range ROWS ×ˢ Finset.range COLS).filter (fun rc =>
        cellAt s.grid rc.1 rc.2 = some Cell.empty ∧
          cellAt (placePiece p s.grid).1 rc.1 rc.2 = some Cell.locked)).card =
        (p.shape.coords.filter (fun d =>
          decide ((0 ≤ p.y + d.y ∧ p.y + d.y < 12) ∧ (0 ≤ p.x + d.x ∧ p.x + d.x < 10) ∧
            cellAt s.grid (p.y + d.y).toNat (p.x + d.x).toNat = some Cell.empty))).length ∧
      WellFormed (placePiece p s.grid).1 ∧
      (∀ r c : Nat,
        ¬ (∃ d ∈ p.shape.coords, p.y + d.y = (r : Int) ∧ p.x + d.x = (c : Int)) →
        cellAt (placePiece p s.grid).1 r c = cellAt s.grid r c) ∧
      (Reachable s →
        ((Finset.range ROWS ×ˢ Finset.range COLS).filter (fun rc =>
          cellAt s.grid rc.1 rc.2 = some Cell.empty ∧
            cellAt (placePiece p s.grid).1 rc.1 rc.2 = some Cell.locked)).card =
          (p.shape.coords.filter (fun d => decide (0 ≤ p.y + d.y))).length) := by
  refine ⟨placePiece_card hg p (shapes_nodup hs), placePiece_wf p hg,
    fun r c hcov => placePiece_frame p hg r c hcov, ?_⟩
  intro hr
  have hinv := reachable_inv hr
  obtain ⟨_, hy, hfree⟩ := hinv.piece p hp
  rw [placePiece_card hg p (shapes_nodup hs)]
  congr 1
  apply List.filter_congr
  intro d hd
  have hf := free_cells hg hfree hd
  have ho := shapes_offsets hs hd
  have hy0 : 0 ≤ p.y + d.y := by omega
  have hcell := hf.2.2.2 hy0
  have h1 : decide ((0 ≤ p.y + d.y ∧ p.y + d.y < 12) ∧ (0 ≤ p.x + d.x ∧ p.x + d.x < 10) ∧
      cellAt s.grid (p.y + d.y).toNat (p.x + d.x).toNat = some Cell.empty) = true :=
    decide_eq_true ⟨⟨hy0, hf.2.2.1⟩, ⟨hf.1, hf.2.1⟩, hcell⟩
  rw [h1]
  exact (decide_eq_true hy0).symm

/-- C7 at concrete inputs: the 2x1 block entering the board from row -1
turns one Empty cell into a Locked one, its upper cell being dropped; the 2x2
block of the reachable state `preWin` turns four. -/
theorem placement_count_witness :
    ((Finset.range ROWS ×ˢ Finset.range COLS).filter (fun rc =>
        cellAt enteringState.grid rc.1 rc.2 = some Cell.empty ∧
          cellAt (placePiece { shape := randomShape 1, x := 0, y := -1 }
            enteringState.grid).1 rc.1 rc.2 = some Cell.locked)).card = 1 ∧
      (Reachable preWin ∧
        ((Finset.range ROWS ×ˢ Finset.range COLS).filter (fun rc =>
          cellAt preWin.grid rc.1 rc.2 = some Cell.empty ∧
            cellAt (placePiece { shape := randomShape 0, x := 8, y := 6 } preWin.grid).1
              rc.1 rc.2 = some Cell.locked)).card = 4) := by
  refine ⟨?_, preWin_reachable, ?_⟩
  · rw [(placement_count enteringState { shape := randomShape 1, x := 0, y := -1 }
      (by decide) rfl (by decide)).1]
    decide
  · rw [(placement_count preWin { shape := randomShape 0, x := 8, y := 6 }
      (by decide) rfl (by decide)).2.2.2 preWin_reachable]
    decide

/-- C10 at a concrete reachable state: `preWin`, with four Cleared rows. -/
theorem cleared_rows_whole_witness :
    Reachable preWin ∧
      (∀ row ∈ preWin.grid, (∀ c ∈ row, c = Cell.green) ∨ (∀ c ∈ row, c ≠ Cell.green)) ∧
      (preWin.grid.filter (fun row => decide (row[0]? = some Cell.green))).length =
        (preWin.grid.filter
          (fun row => row.all (fun cell => decide (cell = Cell.green)))).length :=
  ⟨preWin_reachable, cleared_rows_whole preWin preWin_reachable⟩

/-! ## The active piece and the lifecycle -/

/-- C11. In every reachable state an active piece exists exactly when the
game is Running (`isActive` set and `isGameOver` clear); when the board is
not activated (Idle) and when the game is over (Ended) there is none. -/
theorem active_iff_running (s : State) (hr : Reachable s) :
    ((∃ p, s.activePiece = some p) ↔ (s.isActive = true ∧ s.isGameOver = false)) ∧
      (s.isActive = false → s.activePiece = none) ∧
      (s.isGameOver = true → s.activePiece = none) := by
  have hact := (reachable_inv hr).active
  cases hp : s.activePiece <;> cases ha : s.isActive <;> cases ho : s.isGameOver <;>
    simp [hp, ha, ho] at hact ⊢

/-- C11 at concrete reachable states: a piece is falling in `preWin`, which
is Running. -/
theorem active_iff_running_witness :
    Reachable preWin ∧
      ((∃ p, preWin.activePiece = some p) ↔
        (preWin.isActive = true ∧ preWin.isGameOver = false)) :=
  ⟨preWin_reachable, (active_iff_running preWin preWin_reachable).1⟩

/-! ## Out-of-turn commands -/

/-- C13. In a state that is not Running, `tick`, `moveLeft` and `moveRight`
return the state unchanged; in a state whose board is already activated,
`activate` returns the state unchanged. -/
theorem out_of_turn_ignored (s : State) (rnd : Fin 3) :
    (¬ (s.isActive = true ∧ s.isGameOver = false) →
      step s Command.tick rnd = some s ∧ step s Command.moveLeft rnd = some s ∧
        step s Command.moveRight rnd = some s) ∧
      (s.isActive = true → step s Command.activate rnd = some s) := by
  constructor
  · intro hnr
    have hm : canMove s = false := by
      rw [Bool.eq_false_iff]
      intro h
      obtain ⟨ha, ho, _⟩ := (canMove_iff s).mp h
      exact hnr ⟨ha, ho⟩
    simp [step, tick, moveLeft, moveRight, hm]
  · intro ha
    simp [step, handleBoardClick, ha]

/-- C13 at concrete states: a tick before the first click, a key after the
win, and a second click during the game change nothing. -/
theorem out_of_turn_ignored_witness :
    step initialState Command.tick 0 = some initialState ∧
      step afterWin Command.moveLeft 0 = some afterWin ∧
      step preWin Command.activate 0 = some preWin :=
  ⟨((out_of_turn_ignored initialState 0).1 (by decide)).1,
    ((out_of_turn_ignored afterWin 0).1 (by decide)).2.1,
    (out_of_turn_ignored preWin 0).2 rfl⟩

/-! ## The active piece is on free board cells -/

/-- C15, amended.  In every state reached by atomically applied commands
(each handler running on re-synchronised refs) the active piece does not
collide at its own origin: each of its cells has its column in `[0, 10)`, its
row in `[0, 12)` and lies on an Empty grid cell.  No cell has a negative row,
so the placement of a lock writes every cell of the piece, each onto an Empty
cell. -/
theorem active_piece_free (s : State) (p : Piece) (hr : Reachable s)
    (hp : s.activePiece = some p) :
    checkCollision p.x p.y p.shape s.grid = some false ∧
      ∀ d ∈ p.shape.coords,
        (0 ≤ p.x + d.x ∧ p.x + d.x < 10) ∧ (0 ≤ p.y + d.y ∧ p.y + d.y < 12) ∧
          cellAt s.grid (p.y + d.y).toNat (p.x + d.x).toNat = some Cell.empty ∧
          cellAt (placePiece p s.grid).1 (p.y + d.y).toNat (p.x + d.x).toNat =
            some Cell.locked := by
  have hinv := reachable_inv hr
  obtain ⟨hshape, hy, hfree⟩ := hinv.piece p hp
  refine ⟨hfree, ?_⟩
  intro d hd
  have hf := free_cells hinv.wf hfree hd
  have ho := shapes_offsets hshape hd
  have hy0 : 0 ≤ p.y + d.y := by omega
  refine ⟨⟨hf.1, hf.2.1⟩, ⟨hy0, hf.2.2.1⟩, hf.2.2.2 hy0, ?_⟩
  have hcov : Covers p.x p.y p.shape.coords (p.y + d.y).toNat (p.x + d.x).toNat :=
    ⟨d, hd, by omega, by omega⟩
  rw [placePiece_cellAt p hinv.wf (by unfold ROWS; omega) (by unfold COLS; omega),
    if_pos hcov]

/-- C15 at a concrete reachable state: the 2x2 block of `preWin`. -/
theorem active_piece_free_witness :
    Reachable preWin ∧
      checkCollision 8 6 (randomShape 0) preWin.grid = some false :=
  ⟨preWin_reachable,
    (active_piece_free preWin { shape := randomShape 0, x := 8, y := 6 }
      preWin_reachable rfl).1⟩

/-! ## Spawning -/

theorem occupied_iff_not_empty {g : Grid} (hg : WellFormed g) {r c : Nat} (hr : r < ROWS)
    (hc : c < COLS) :
    (cellAt g r c = some Cell.locked ∨ cellAt g r c = some Cell.green) ↔
      cellAt g r c ≠ some Cell.empty := by
  obtain ⟨cell, hcell⟩ := wf_cellAt hg hr hc
  rw [hcell]
  cases cell <;> simp

theorem clearFullRows_empty_iff {g : Grid} (hg : WellFormed g) {r c : Nat} (hr : r < ROWS)
    (hc : c < COLS) :
    cellAt (clearFullRows g).1 r c = some Cell.empty ↔ cellAt g r c = some Cell.empty := by
  constructor
  · intro h
    rcases clearFullRows_cellAt hg hr hc with h2 | h2
    · rw [h2] at h
      simp at h
    · rw [← h2]
      exact h
  · intro h
    rw [clearFullRows_cellAt_of_empty h]
    exact h

/-- The spawn that follows a non-losing lock gives the same answer on the
grid held by `gridRef` (the grid before the lock) and on the grid the lock
has just produced. -/
theorem lock_spawn_agree {g : Grid} (hg : WellFormed g) (p : Piece) (rnd : Fin 3)
    (hflag : (placePiece p g).2 = false) :
    checkCollision 0 0 (randomShape rnd) (clearFullRows (placePiece p g).1).1 =
      checkCollision 0 0 (randomShape rnd) g := by
  have hg1 := placePiece_wf p hg
  have hg2 := clearFullRows_wf hg1
  have hcell : ∀ r c : Nat, r < SAFE_ZONE_START_ROW → c < COLS →
      (cellAt (clearFullRows (placePiece p g).1).1 r c = some Cell.empty ↔
        cellAt g r c = some Cell.empty) := by
    intro r c hr hc
    have hr2 : r < ROWS := by unfold SAFE_ZONE_START_ROW at hr; unfold ROWS; omega
    rw [clearFullRows_empty_iff hg1 hr2 hc, placePiece_cellAt p hg hr2 hc, if_neg]
    rintro ⟨d, hd, h1, h2⟩
    have : (placePiece p g).2 = true := by
      rw [placePiece_flag]
      unfold SAFE_ZONE_START_ROW at hr
      unfold COLS at hc
      exact ⟨d, hd, ⟨by omega, by omega⟩, by omega, by omega⟩
    rw [hflag] at this
    exact absurd this (by simp)
  have hblocked : ∀ d ∈ (randomShape rnd).coords,
      (Blocked (clearFullRows (placePiece p g).1).1 0 0 d ↔ Blocked g 0 0 d) := by
    intro d hd
    have ho := shapes_offsets (randomShape_mem rnd) hd
    have hr : (0 + d.y).toNat < SAFE_ZONE_START_ROW := by unfold SAFE_ZONE_START_ROW; omega
    have hc : (0 + d.x).toNat < COLS := by unfold COLS; omega
    have hr2 : (0 + d.y).toNat < ROWS := by unfold ROWS; omega
    unfold Blocked
    rw [occupied_iff_not_empty hg2 hr2 hc, occupied_iff_not_empty hg hr2 hc, ne_eq, ne_eq,
      hcell _ _ hr hc]
  rcases checkCollision_total hg 0 0 (randomShape rnd) with h | h
  · rw [h, checkCollision_true_iff hg2]
    obtain ⟨d, hd, hb⟩ := (checkCollision_true_iff hg 0 0 _).mp h
    exact ⟨d, hd, (hblocked d hd).mpr hb⟩
  · rw [h, checkCollision_false_iff hg2]
    intro d hd hb
    exact (checkCollision_false_iff hg 0 0 _).mp h d hd ((hblocked d hd).mp hb)

/-- C12. On every 12x10 grid and for every catalog shape, `spawnPiece`
called with no active piece returns a state; that state has the shape as
active piece at column 0, row 0 exactly when the shape placed at `(0, 0)`
does not collide with the grid, and then nothing else changes; when it
collides no piece is created, the outcome is Loss and `isGameOver` is set.
After a non-losing lock the check gives the same answer on the grid before
and after the lock. -/
theorem spawn_iff (g : Grid) (s : State) (rnd : Fin 3) (hg : WellFormed g)
    (hs : s.activePiece = none) :
    (∃ b t, checkCollision 0 0 (randomShape rnd) g = some b ∧ spawnPiece g s rnd = some t ∧
      (t.activePiece = some { shape := randomShape rnd, x := 0, y := 0 } ↔ b = false) ∧
      (b = false → t.grid = s.grid ∧ t.isActive = s.isActive ∧
        t.isGameOver = s.isGameOver ∧ t.gameResult = s.gameResult) ∧
      (b = true → t.activePiece = none ∧ t.gameResult = some GameResult.loss ∧
        t.isGameOver = true ∧ t.grid = s.grid ∧ t.isActive = s.isActive)) ∧
      (∀ p : Piece, (placePiece p g).2 = false →
        checkCollision 0 0 (randomShape rnd) (clearFullRows (placePiece p g).1).1 =
          checkCollision 0 0 (randomShape rnd) g) := by
  refine ⟨?_, fun p hflag => lock_spawn_agree hg p rnd hflag⟩
  rcases checkCollision_total hg 0 0 (randomShape rnd) with h | h
  · refine ⟨true, handleLoss s, h, ?_, ?_, ?_, ?_⟩
    · unfold spawnPiece
      simp only [h]
    · simp [handleLoss, hs]
    · intro hb
      exact absurd hb (by simp)
    · intro _
      exact ⟨hs, rfl, rfl, rfl, rfl⟩
  · refine ⟨false, { s with activePiece := some { shape := randomShape rnd, x := 0, y := 0 } },
      h, ?_, ?_, ?_, ?_⟩
    · unfold spawnPiece
      simp only [h]
    · simp
    · intro _
      exact ⟨rfl, rfl, rfl, rfl⟩
    · intro hb
      exact absurd hb (by simp)

/-- C12, scenario of the specification: on the empty grid the 2x2 block
spawns at `(0, 0)` without collision. -/
theorem spawn_iff_witness :
    ∃ t, spawnPiece emptyGrid initialState 0 = some t ∧
      t.activePiece = some { shape := randomShape 0, x := 0, y := 0 } := by
  obtain ⟨b, t, hb, ht, hiff, _⟩ := (spawn_iff emptyGrid initialState 0 (by decide) rfl).1
  have hfree : checkCollision 0 0 (randomShape 0) emptyGrid = some false := by decide
  rw [hfree] at hb
  have hbf : b = false := by injection hb with h; exact h.symm
  exact ⟨t, ht, hiff.mpr hbf⟩

/-! ## The rows above the safe zone -/

/-- C14. In every reachable state that is not Ended, all cells of rows 0
to 3 are Empty; hence for every catalog shape the check of `spawnPiece` at
`(0, 0)` finds no collision and `spawnPiece` creates the piece, whatever
state it updates; and a command can only end in Loss by being a tick that
locks a piece with a board cell on a row below 4. -/
theorem top_rows_empty (s : State) (hr : Reachable s) (ho : s.isGameOver = false) :
    (∀ r c : Nat, r < 4 → c < 10 → cellAt s.grid r c = some Cell.empty) ∧
      (∀ (rnd : Fin 3) (u : State),
        checkCollision 0 0 (randomShape rnd) s.grid = some false ∧
          spawnPiece s.grid u rnd =
            some { u with activePiece := some { shape := randomShape rnd, x := 0, y := 0 } }) ∧
      (∀ (c : Command) (rnd : Fin 3) (t : State), step s c rnd = some t →
        t.gameResult = some GameResult.loss →
        c = Command.tick ∧ ∃ p, s.activePiece = some p ∧
          checkCollision p.x (p.y + 1) p.shape s.grid = some true ∧
          ∃ d ∈ p.shape.coords, 0 ≤ p.y + d.y ∧ p.y + d.y < 4) := by
  have hinv := reachable_inv hr
  have htop := hinv.top ho
  have hres : s.gameResult = none := by
    have := hinv.result
    rw [ho] at this
    simpa using this
  refine ⟨fun r c hr hc => htop r c hr hc, ?_, ?_⟩
  · intro rnd u
    exact ⟨spawn_free hinv.wf htop rnd, spawnPiece_ok hinv.wf htop u rnd⟩
  · intro c rnd t ht hloss
    by_cases hlock : c = Command.tick ∧ s.isActive = true ∧ s.isGameOver = false ∧
        ∃ p, s.activePiece = some p ∧ checkCollision p.x (p.y + 1) p.shape s.grid = some true
    · obtain ⟨rfl, ha, _, p, hp, hcol⟩ := hlock
      rw [step_lock ha ho hp hcol, lockPiece_eq hp hinv.wf htop] at ht
      split_ifs at ht with hflag hwin
      · obtain ⟨d, hd, h1, _⟩ := (placePiece_flag p s.grid).mp hflag
        exact ⟨rfl, p, hp, hcol, d, hd, h1⟩
      · simp only [Option.some.injEq] at ht
        subst ht
        simp [handleWin] at hloss
      · simp only [Option.some.injEq] at ht
        subst ht
        simp [hres] at hloss
    · rcases step_no_lock hinv ht hlock with h | h
      · rw [h, hres] at hloss
        exact absurd hloss (by simp)
      · rw [h] at hloss
        exact absurd hloss (by simp)

/-- C14 at a concrete reachable state: `preWin`, still Running, row 3. -/
theorem top_rows_empty_witness :
    Reachable preWin ∧ cellAt preWin.grid 3 9 = some Cell.empty :=
  ⟨preWin_reachable,
    (top_rows_empty preWin preWin_reachable rfl).1 3 9 (by decide) (by decide)⟩

/-! ## The component with its refs -/

theorem applySetters_append (s : State) (xs ys : List Setter) :
    applySetters s (xs ++ ys) = applySetters (applySetters s xs) ys := by
  unfold applySetters
  rw [List.foldl_append]

theorem spawnPiece_eq_calls (g : Grid) (s : State) (rnd : Fin 3) :
    spawnPiece g s rnd = (spawnPieceCalls g rnd).map (applySetters s) := by
  unfold spawnPiece spawnPieceCalls
  cases h : checkCollision 0 0 (randomShape rnd) g with
  | none => simp only [h, Option.map_none']
  | some b =>
    cases b
    · simp only [h, Option.map_some']
      rfl
    · simp only [h, Option.map_some']
      rfl

theorem lockPiece_eq_calls (s : State) (rnd : Fin 3) :
    lockPiece s rnd = (lockPieceCalls s rnd).map (applySetters s) := by
  unfold lockPiece lockPieceCalls
  cases s.activePiece with
  | none => rfl
  | some piece =>
    simp only
    split_ifs with hflag hwin
    · rfl
    · rfl
    · rw [spawnPiece_eq_calls]
      cases spawnPieceCalls s.grid rnd with
      | none => rfl
      | some calls =>
        simp only [Option.map_some', applySetters_append]
        rfl

theorem movePiece_eq_calls (s : State) (dx dy : Int) (rnd : Fin 3) :
    movePiece s dx dy rnd = (movePieceCalls s dx dy rnd).map (applySetters s) := by
  unfold movePiece movePieceCalls
  cases hp : s.activePiece with
  | none => rfl
  | some piece =>
    simp only
    cases checkCollision (piece.x + dx) (piece.y + dy) piece.shape s.grid with
    | none => rfl
    | some b =>
      cases b
      · rfl
      · simp only
        split_ifs
        · exact lockPiece_eq_calls s rnd
        · rfl

/-- Run on refs that hold the current state, the setter calls of a handler
give the state that `step` returns. -/
theorem step_eq_calls (s : State) (c : Command) (rnd : Fin 3) :
    step s c rnd = (handlerCalls s c rnd).map (applySetters s) := by
  cases c with
  | tick =>
    simp only [step, tick, handlerCalls]
    split_ifs
    · exact movePiece_eq_calls s 0 1 rnd
    · rfl
  | moveLeft =>
    simp only [step, moveLeft, handlerCalls]
    split_ifs
    · exact movePiece_eq_calls s (-1) 0 rnd
    · rfl
  | moveRight =>
    simp only [step, moveRight, handlerCalls]
    split_ifs
    · exact movePiece_eq_calls s 1 0 rnd
    · rfl
  | activate =>
    simp only [step, handleBoardClick, handlerCalls]
    split_ifs
    · rw [spawnPiece_eq_calls]
      cases spawnPieceCalls s.grid rnd with
      | none => rfl
      | some calls => rfl
    · rfl
    · rfl
  | reset => rfl

/-- Every state reached by atomic commands is reached by the component,
with its refs re-synchronised. -/
theorem reachable_live {s : State} (h : Reachable s) :
    LiveReachable { state := s, refs := s } := by
  induction h with
  | init => exact LiveReachable.init
  | @next s t c rnd _ hstep ih =>
    rw [step_eq_calls] at hstep
    cases hcalls : handlerCalls s c rnd with
    | none => rw [hcalls] at hstep; exact absurd hstep (by simp)
    | some calls =>
      rw [hcalls] at hstep
      simp only [Option.map_some', Option.some.injEq] at hstep
      have h1 : liveStep { state := s, refs := s } (Event.handler c rnd) =
          some { state := t, refs := s } := by
        simp only [liveStep, hcalls, hstep]
      have h2 : liveStep { state := t, refs := s } Event.render =
          some { state := t, refs := t } := rfl
      exact LiveReachable.next Event.render (LiveReachable.next (Event.handler c rnd) ih h1) h2

theorem corner_reachable : Reachable (runningWith cornerPiece) :=
  reachable_run Reachable.init cornerTrace (runningWith cornerPiece) (by decide)

/-- The component reaches `overlapState`: the tick that locks `cornerPiece`
and spawns the next block, then `ArrowRight` handled while the refs still hold
`cornerPiece` and the empty grid, then the re-render. -/
theorem overlap_reachable : LiveReachable { state := overlapState, refs := overlapState } := by
  have h0 := reachable_live corner_reachable
  have h1 := LiveReachable.next (Event.handler Command.tick 0) h0
    (m := { state := { grid := cornerGrid,
                       activePiece := some { shape := randomShape 0, x := 0, y := 0 },
                       isActive := true, isGameOver := false, gameResult := none },
            refs := runningWith cornerPiece }) (by decide)
  have h2 := LiveReachable.next (Event.handler Command.moveRight 0) h1
    (m := { state := overlapState, refs := runningWith cornerPiece }) (by decide)
  exact LiveReachable.next Event.render h2 (by decide)

/-- C7 as first stated fails on the component: it reaches `overlapState`,
a Running state whose 2x2 block lies over two Locked cells and cannot
descend; the lock that the next tick runs turns two cells from Empty to
Locked, while all four cells of the block have a row that is not negative. -/
theorem placement_count_counterexample :
    LiveReachable { state := overlapState, refs := overlapState } ∧
      (overlapState.isActive = true ∧ overlapState.isGameOver = false) ∧
      overlapState.activePiece = some overlapPiece ∧
      checkCollision overlapPiece.x (overlapPiece.y + 1) overlapPiece.shape
        overlapState.grid = some true ∧
      ((Finset.range ROWS ×ˢ Finset.range COLS).filter (fun rc =>
        cellAt overlapState.grid rc.1 rc.2 = some Cell.empty ∧
          cellAt (placePiece overlapPiece overlapState.grid).1 rc.1 rc.2 =
            some Cell.locked)).card = 2 ∧
      (overlapPiece.shape.coords.filter
        (fun d => decide (0 ≤ overlapPiece.y + d.y))).length = 4 := by
  refine ⟨overlap_reachable, ⟨rfl, rfl⟩, rfl, by decide, ?_, by decide⟩
  rw [placePiece_card (by decide) overlapPiece (by decide)]
  decide

/-- C15 as first stated fails on the component: it reaches `overlapState`,
whose active 2x2 block at `(1, 10)` collides at its own origin, its cells at
column 1 lying on Locked cells. -/
theorem active_piece_free_counterexample :
    LiveReachable { state := overlapState, refs := overlapState } ∧
      overlapState.activePiece = some overlapPiece ∧
      checkCollision overlapPiece.x overlapPiece.y overlapPiece.shape overlapState.grid =
        some true ∧
      cellAt overlapState.grid 10 1 = some Cell.locked ∧
      cellAt overlapState.grid 11 1 = some Cell.locked :=
  ⟨overlap_reachable, rfl, by decide, by decide, by decide⟩

end Tetro

namespace Slido

/-! ## Neighbours on the 3x3 grid -/

theorem neighbors_adjacent :
    ∀ idx, idx < 9 → ∀ n ∈ getNeighbors idx, Adjacent idx n := by
  decide

theorem neighbors_two :
    ∀ idx, idx < 9 → ∃ a ∈ getNeighbors idx, ∃ b ∈ getNeighbors idx, a ≠ b := by
  decide

theorem validNeighbors_ne_nil {idx : Nat} (h : idx < 9) (prev : Int) :
    (getNeighbors idx).filter (fun (n : Nat) => decide ((n : Int) ≠ prev)) ≠ [] := by
  obtain ⟨a, ha, b, hb, hab⟩ := neighbors_two idx h
  intro hnil
  rw [List.filter_eq_nil_iff] at hnil
  have h1 := hnil a ha
  have h2 := hnil b hb
  simp only [ne_eq, decide_not, Bool.not_eq_true', decide_eq_false_iff_not, not_not] at h1 h2
  omega

/-! ## The swap -/

theorem swapCells_eq {l c : List Nat} {i j : Nat} (h : swapCells l i j = some c) :
    ∃ a b, l[i]? = some a ∧ l[j]? = some b ∧ c = (l.set i b).set j a := by
  unfold swapCells at h
  cases hi : l[i]? with
  | none => simp [hi] at h
  | some a =>
    cases hj : l[j]? with
    | none => simp [hi, hj] at h
    | some b =>
      simp only [hi, hj, Option.some.injEq] at h
      exact ⟨a, b, rfl, rfl, h.symm⟩

theorem swapCells_perm {l c : List Nat} {i j : Nat} (h : swapCells l i j = some c) :
    c.Perm l := by
  obtain ⟨a, b, hi, hj, rfl⟩ := swapCells_eq h
  obtain ⟨hil, hia⟩ := List.getElem?_eq_some_iff.mp hi
  obtain ⟨hjl, hjb⟩ := List.getElem?_eq_some_iff.mp hj
  rw [List.perm_iff_count]
  intro x
  have hjl2 : j < (l.set i b).length := by rw [List.length_set]; exact hjl
  have hmid : (l.set i b)[j] = b := by
    rw [List.getElem_set]
    split_ifs with hij
    · rfl
    · exact hjb
  rw [List.count_set _ _ _ _ hjl2, List.count_set _ _ _ _ hil, hmid, hia]
  have hpos : a = x → 0 < l.count x := by
    intro hax
    rw [List.count_pos_iff]
    rw [← hax, ← hia]
    exact List.getElem_mem _
  by_cases hax : a = x <;> by_cases hbx : b = x <;> simp [hax, hbx]
  · have := hpos hax
    omega
  · have := hpos hax
    omega

theorem swapCells_blank {l m : List Nat} {i j : Nat} (h : swapCells l i j = some m)
    (hb : l[i]? = some 8) : m[j]? = some 8 := by
  obtain ⟨a, b, hi, hj, rfl⟩ := swapCells_eq h
  rw [hb] at hi
  injection hi with hi
  subst hi
  obtain ⟨hjl, _⟩ := List.getElem?_eq_some_iff.mp hj
  exact List.getElem?_set_self (by rw [List.length_set]; exact hjl)

theorem adjacent_ne {i j : Nat} (h : Adjacent i j) : i ≠ j := by
  unfold Adjacent at h
  omega

theorem swapCells_pointwise {l m : List Nat} {i j : Nat} (h : swapCells l i j = some m)
    (hij : i ≠ j) :
    m.length = l.length ∧ m[j]? = l[i]? ∧ m[i]? = l[j]? ∧
      ∀ k, k ≠ i → k ≠ j → m[k]? = l[k]? := by
  obtain ⟨a, b, hi, hj, rfl⟩ := swapCells_eq h
  obtain ⟨hil, _⟩ := List.getElem?_eq_some_iff.mp hi
  obtain ⟨hjl, _⟩ := List.getElem?_eq_some_iff.mp hj
  refine ⟨by rw [List.length_set, List.length_set], ?_, ?_, ?_⟩
  · rw [hi]
    exact List.getElem?_set_self (by rw [List.length_set]; exact hjl)
  · rw [List.getElem?_set_ne (fun h => hij h.symm), hj]
    exact List.getElem?_set_self hil
  · intro k hki hkj
    rw [List.getElem?_set_ne (fun h => hkj h.symm), List.getElem?_set_ne (fun h => hki h.symm)]

/-! ## One iteration -/

theorem shuffleStep_spec (rnd : Nat) (st : Shuffle) (hperm : st.current.Perm WIN_STATE)
    (he : st.emptyIdx < 9) (hb : st.current[st.emptyIdx]? = some 8) :
    ∃ st2, shuffleStep rnd st = some st2 ∧ Adjacent st.emptyIdx st2.emptyIdx ∧
      swapCells st.current st.emptyIdx st2.emptyIdx = some st2.current ∧
      st2.current.Perm WIN_STATE ∧ st2.emptyIdx < 9 ∧
      st2.current[st2.emptyIdx]? = some 8 := by
  have hne := validNeighbors_ne_nil he st.previousIdx
  have hlen : 0 < ((getNeighbors st.emptyIdx).filter
      (fun (n : Nat) => decide ((n : Int) ≠ st.previousIdx))).length :=
    List.length_pos.mpr hne
  have hidx := Nat.mod_lt rnd hlen
  obtain ⟨n, hn⟩ : ∃ n, ((getNeighbors st.emptyIdx).filter
      (fun (n : Nat) => decide ((n : Int) ≠ st.previousIdx)))[rnd %
        ((getNeighbors st.emptyIdx).filter
          (fun (n : Nat) => decide ((n : Int) ≠ st.previousIdx))).length]? = some n :=
    ⟨_, List.getElem?_eq_getElem hidx⟩
  have hmem : n ∈ getNeighbors st.emptyIdx :=
    (List.mem_filter.mp (List.getElem?_mem hn)).1
  have hadj := neighbors_adjacent st.emptyIdx he n hmem
  have hn9 : n < 9 := hadj.2.1
  have hlen9 : st.current.length = 9 := by
    rw [hperm.length_eq]
    rfl
  obtain ⟨b, hbn⟩ : ∃ b, st.current[n]? = some b :=
    ⟨_, List.getElem?_eq_getElem (by rw [hlen9]; exact hn9)⟩
  have hswap : swapCells st.current st.emptyIdx n =
      some ((st.current.set st.emptyIdx b).set n 8) := by
    unfold swapCells
    rw [hb, hbn]
  refine ⟨{ current := (st.current.set st.emptyIdx b).set n 8,
            previousIdx := (st.emptyIdx : Int), emptyIdx := n }, ?_, hadj, hswap,
    (swapCells_perm hswap).trans hperm, hn9, swapCells_blank hswap hb⟩
  unfold shuffleStep
  simp only [hn, hswap]

theorem shuffleStep_slide {st st2 : Shuffle} (hb : st.current[st.emptyIdx]? = some 8)
    (hadj : Adjacent st.emptyIdx st2.emptyIdx)
    (hswap : swapCells st.current st.emptyIdx st2.emptyIdx = some st2.current) :
    st2.current.length = st.current.length ∧ st2.current[st2.emptyIdx]? = some 8 ∧
      st2.current[st.emptyIdx]? = st.current[st2.emptyIdx]? ∧
      ∀ k, k ≠ st.emptyIdx → k ≠ st2.emptyIdx → st2.current[k]? = st.current[k]? := by
  obtain ⟨h1, h2, h3, h4⟩ := swapCells_pointwise hswap (adjacent_ne hadj)
  exact ⟨h1, by rw [h2, hb], h3, h4⟩

/-! ## The loop -/

theorem shuffleLoop_good (rnd : Nat → Nat) (i : Nat) :
    ∃ st, shuffleLoop rnd i = some st ∧ st.current.Perm WIN_STATE ∧ st.emptyIdx < 9 ∧
      st.current[st.emptyIdx]? = some 8 ∧ Solvable st.current := by
  induction i with
  | zero => exact ⟨_, rfl, List.Perm.refl _, by decide, by decide, Solvable.solved⟩
  | succ i ih =>
    obtain ⟨st, hst, hperm, he, hb, hsolv⟩ := ih
    obtain ⟨st2, hstep, hadj, hswap, hperm2, he2, hb2⟩ :=
      shuffleStep_spec (rnd i) st hperm he hb
    obtain ⟨h1, h2, h3, h4⟩ := shuffleStep_slide hb hadj hswap
    refine ⟨st2, ?_, hperm2, he2, hb2,
      Solvable.slide hsolv ⟨st.emptyIdx, st2.emptyIdx, hadj, hb, h1, h2, h3, h4⟩⟩
    simp only [shuffleLoop, hst, hstep]

/-- C16. For every sequence of random draws the loop of `shuffleBoard`
starts from the solved board, and each of its 100 iterations starts from
defined loop variables whose `emptyIdx` is the blank, finds a non-empty list
of neighbours of the blank other than the previous index, and ends with the
blank and a cell that shares a side with it having changed places, every
other cell being as before.  `shuffleBoard` returns the board of the loop
variables after the 100th iteration; it is a permutation of `0..8` and legal
slides reach it from the solved board. -/
theorem shuffleBoard_solvable (rnd : Nat → Nat) :
    (shuffleLoop rnd 0).map (fun st => st.current) = some [0, 1, 2, 3, 4, 5, 6, 7, 8] ∧
      (∀ i, i < 100 →
        ∃ st st2, shuffleLoop rnd i = some st ∧ shuffleLoop rnd (i + 1) = some st2 ∧
          (getNeighbors st.emptyIdx).filter
            (fun (n : Nat) => decide ((n : Int) ≠ st.previousIdx)) ≠ [] ∧
          st.current[st.emptyIdx]? = some 8 ∧ Adjacent st.emptyIdx st2.emptyIdx ∧
          st2.current.length = st.current.length ∧
          st2.current[st2.emptyIdx]? = some 8 ∧
          st2.current[st.emptyIdx]? = st.current[st2.emptyIdx]? ∧
          (∀ k, k ≠ st.emptyIdx → k ≠ st2.emptyIdx → st2.current[k]? = st.current[k]?)) ∧
      ∃ st, shuffleLoop rnd 100 = some st ∧ shuffleBoard rnd = some st.current ∧
        st.current.Perm [0, 1, 2, 3, 4, 5, 6, 7, 8] ∧ Solvable st.current := by
  refine ⟨rfl, ?_, ?_⟩
  · intro i _
    obtain ⟨st, hst, hperm, he, hb, _⟩ := shuffleLoop_good rnd i
    obtain ⟨st2, hstep, hadj, hswap, _⟩ := shuffleStep_spec (rnd i) st hperm he hb
    obtain ⟨h1, h2, h3, h4⟩ := shuffleStep_slide hb hadj hswap
    refine ⟨st, st2, hst, ?_, validNeighbors_ne_nil he st.previousIdx, hb, hadj, h1, h2,
      h3, h4⟩
    simp only [shuffleLoop, hst, hstep]
  · obtain ⟨st, hst, hperm, _, _, hsolv⟩ := shuffleLoop_good rnd 100
    exact ⟨st, hst, by simp only [shuffleBoard, hst, Option.map_some'], hperm, hsolv⟩

set_option maxRecDepth 100000 in
theorem shuffleBoard_zero :
    shuffleBoard (fun _ => 0) = some [4, 7, 1, 0, 8, 2, 3, 6, 5] := by
  decide

/-- C16 at a concrete input: when every draw is 0 the shuffle returns the
board `4 7 1 / 0 _ 2 / 3 6 5`, a permutation of `0..8` that legal slides
reach from the solved board. -/
theorem shuffleBoard_solvable_witness :
    shuffleBoard (fun _ => 0) = some [4, 7, 1, 0, 8, 2, 3, 6, 5] ∧
      List.Perm [4, 7, 1, 0, 8, 2, 3, 6, 5] [0, 1, 2, 3, 4, 5, 6, 7, 8] ∧
      Solvable [4, 7, 1, 0, 8, 2, 3, 6, 5] := by
  obtain ⟨st, _, hboard, hperm, hsolv⟩ := (shuffleBoard_solvable (fun _ => 0)).2.2
  have hval := shuffleBoard_zero
  have hcur : st.current = [4, 7, 1, 0, 8, 2, 3, 6, 5] := by
    rw [hval] at hboard
    injection hboard with h
    exact h.symm
  rw [hcur] at hperm hsolv
  exact ⟨hval, hperm, hsolv⟩

end Slido
